import Mathlib

/-!
A verification development for the `ovhacme` repository: a shallow embedding of
the DNS-01 challenge orchestration in `ovhacme.py` (the `OVHDNSChallenge` DNS
handler and `ACMEClient.request_certificate`), together with theorems settling
the specification's claims about it.

Machine-level collaborators (the OVH provider API and the ACME server) are
modelled as oracles: pure functions returning `Except`-values describing the
outcome of each call.  Wall-clock time is modelled as a natural-number counter
advanced by the `sleep` calls the code performs.
-/

/-! ## String utilities

Kernel-reducible replacements for the Python string operations the source uses
(`str.split('.')`, `'.'.join`, `str.replace`, `str.strip('"')`).  They are
written by structural recursion over `List Char` so that concrete instances
evaluate by `decide`.
-/

/-- `splitAux sep cs acc` : tail of Python `split` on a single-character
separator; `acc` holds the (reversed) characters of the current field. -/
def splitAux (sep : Char) : List Char → List Char → List String
  | [], acc => [String.mk acc.reverse]
  | c :: rest, acc =>
    if c = sep then String.mk acc.reverse :: splitAux sep rest []
    else splitAux sep rest (c :: acc)

/-- Python `s.split(sep)` for a one-character separator: `"".split('.') = [""]`,
`"a.b".split('.') = ["a","b"]`. -/
def splitOnChar (sep : Char) (s : String) : List String :=
  splitAux sep s.toList []

/-- Python `'.'.join(parts)`. -/
def joinDot : List String → String
  | [] => ""
  | [x] => x
  | x :: y :: rest => x ++ "." ++ joinDot (y :: rest)

/-- One fuel-indexed step list of Python `s.replace(pat, rep)`: scan left to
right, replace each non-overlapping occurrence of `pat`, never rescanning the
replacement.  `fuel` bounds the number of scan steps (each step consumes at
least one input character, so `fuel = length` suffices).  Only called with a
nonempty pattern. -/
def replFuel (pat rep : List Char) : Nat → List Char → List Char
  | _, [] => []
  | 0, s => s
  | fuel + 1, c :: rest =>
    if pat.isPrefixOf (c :: rest) then
      rep ++ replFuel pat rep fuel (List.drop (pat.length - 1) rest)
    else
      c :: replFuel pat rep fuel rest

/-- Python `s.replace(pat, rep)` for a nonempty pattern (every pattern the
source passes — `"*."` and `"." + base_domain` — is nonempty; for an empty
pattern we return `s` unchanged, a case the source never exercises). -/
def pyReplace (s pat rep : String) : String :=
  if pat.isEmpty then s
  else String.mk (replFuel pat.toList rep.toList s.toList.length s.toList)

/-- Python `s.strip('"')`: remove every leading and trailing `"` character. -/
def stripQuotes (s : String) : String :=
  String.mk (((s.toList.dropWhile (· = '"')).reverse.dropWhile (· = '"')).reverse)

/-! ## RecordLocationResolver

`OVHDNSChallenge._get_zone` and `ACMEClient._get_base_domain` (two identical
copies in the source): split on `'.'`, keep the last two labels when there are
at least two, otherwise return the whole domain. -/

/-- `OVHDNSChallenge._get_zone`. -/
def get_zone (domain : String) : String :=
  let parts := splitOnChar '.' domain
  if 2 ≤ parts.length then joinDot (parts.drop (parts.length - 2)) else domain

/-- `ACMEClient._get_base_domain` (textually the same computation as
`_get_zone`, duplicated in the source). -/
def get_base_domain (domain : String) : String :=
  let parts := splitOnChar '.' domain
  if 2 ≤ parts.length then joinDot (parts.drop (parts.length - 2)) else domain

/-- The `(base_domain, subdomain)` computation of `request_certificate`
(lines 222–229):
`clean_domain = domain_name.replace('*.', '')`;
`base_domain = self._get_base_domain(clean_domain)`;
`subdomain = clean_domain.replace(f".{base_domain}", "")`;
`if subdomain == clean_domain: subdomain = ""`. -/
def resolveLoc (domain_name : String) : String × String :=
  let clean := pyReplace domain_name "*." ""
  let base := get_base_domain clean
  let sub0 := pyReplace clean ("." ++ base) ""
  (base, if sub0 = clean then "" else sub0)

/-- Modelled from the spec (§4.1, claim C3's words), for comparison with the
source's `resolveLoc`: strip a *leading* `*.` only; `zone` = last two labels
(whole domain when fewer); `subdomain` = the domain with the `.`+zone *suffix*
removed, or `""` when the domain equals the zone. -/
def stripLeadingStar (s : String) : String :=
  if s.toList.take 2 = ['*', '.'] then String.mk (s.toList.drop 2) else s

/-- Modelled from the spec: remove `suf` from the end of `s` when it is a
suffix, else return `s` unchanged. -/
def removeSuffix (s suf : String) : String :=
  if suf.toList.isSuffixOf s.toList then
    String.mk (s.toList.take (s.toList.length - suf.toList.length))
  else s

/-- Modelled from the spec (§4.1): the claimed behaviour of the resolver. -/
def resolveLocSpec (domain_name : String) : String × String :=
  let clean := stripLeadingStar domain_name
  let zone := get_base_domain clean
  (zone, if clean = zone then "" else removeSuffix clean ("." ++ zone))

/-! ## Collaborator oracles and events

The OVH provider and the ACME server are external collaborators.  Each call the
code makes to them is recorded as an event; the outcome of each call is given
by a pure oracle function. -/

/-- One observable call the code makes to a collaborator (or one sleep).
`cleanupCall` marks an invocation of the handler method
`cleanup_old_challenge_records` (with its `(domain, subdomain)` arguments);
the remaining constructors are the raw provider / ACME / resolver calls. -/
inductive Ev where
  | cleanupCall (domain subdomain : String)
  | listRecords (zone recordName : String)
  | getRecord (zone : String) (id : Nat)
  | createRec (zone recordName value : String)
  | deleteRec (zone : String) (id : Nat)
  | refresh (zone : String)
  | probe (fqdn : String)
  | answer (domain : String)
  | poll (domain : String)
  | sleep (seconds : Nat)
  | finalize
deriving DecidableEq, Repr

/-- Outcome oracle for the OVH provider API (`ovh.Client`): each field gives
the result — or raised exception, as `Except.error` with its message — of the
corresponding endpoint call, as a pure function of the call's arguments. -/
structure Provider where
  listTxt : String → String → Except String (List Nat)
  getTarget : String → Nat → Except String String
  create : String → String → String → Except String Nat
  deleteRecord : String → Nat → Except String Unit
  refreshZone : String → Except String Unit

/-- Status of an ACME authorization as reported by one poll. -/
inductive AuthStatus where
  | valid
  | invalid
  | pending
deriving DecidableEq, Repr

/-- Outcome oracle for the ACME server: `pollAuth d k` is the status reported
by the `k`-th poll (0-based) of domain `d`'s authorization. -/
structure Acme where
  answerChallenge : String → Except String Unit
  pollAuth : String → Nat → AuthStatus
  finalizeOrder : Except String Unit

/-- The errors `request_certificate` can raise, by provenance:
`provider` re-raises a `create_txt_record` exception message; `answerFailed`
is an `answer_challenge` exception; `challengeFailed` is the
`Exception(f"Challenge validation failed for {domain_name}")` of the poll
loop; `pollTimeout` is the `acme_errors.TimeoutError` of the poll loop;
`finalizeFailed` a `poll_and_finalize` failure. -/
inductive Err where
  | provider (msg : String)
  | answerFailed (domain msg : String)
  | challengeFailed (domain : String)
  | pollTimeout (domain : String)
  | finalizeFailed (msg : String)
deriving DecidableEq, Repr

/-! ## DNSRecordManager (`OVHDNSChallenge`)

`self.record_ids` is a Python dict mapping the string key
`f"{record_name}:{value}"` to the provider record id.  We model it as an
association list with the dict operations made explicit. -/

/-- The handler's `record_ids` table. -/
abbrev RecordTable := List (String × Nat)

deriving instance DecidableEq for Except

/-- Python dict lookup `key in d` / `d[key]`. -/
def tableLookup : RecordTable → String → Option Nat
  | [], _ => none
  | p :: rest, q => if p.1 = q then some p.2 else tableLookup rest q

/-- Python dict assignment `d[key] = v` (updates in place, or appends a new
key in insertion order). -/
def tableInsert (tbl : RecordTable) (key : String) (v : Nat) : RecordTable :=
  if (tableLookup tbl key).isSome then
    tbl.map (fun p => if p.1 = key then (key, v) else p)
  else tbl ++ [(key, v)]

/-- Python `del d[key]`. -/
def tableErase (tbl : RecordTable) (key : String) : RecordTable :=
  tbl.filter (fun p => p.1 ≠ key)

/-- The keys currently in the table. -/
def tableKeys (tbl : RecordTable) : List String := tbl.map (·.1)

/-- `f'_acme-challenge.{subdomain}' if subdomain else '_acme-challenge'`. -/
def recordNameFor (subdomain : String) : String :=
  if subdomain = "" then "_acme-challenge" else "_acme-challenge." ++ subdomain

/-- The dict key `f"{record_name}:{value}"` used by `create_txt_record` and
`delete_txt_record`. -/
def recordKey (recordName value : String) : String :=
  recordName ++ ":" ++ value

/-- Events of the delete loop inside `cleanup_old_challenge_records`, and
whether it ran to completion: one `client.delete` per listed id, stopping at
the first raising delete (the exception aborts the `for` and skips the
refresh, and is then caught). -/
def cleanupDeletes (P : Provider) (zone : String) : List Nat → List Ev × Bool
  | [] => ([], true)
  | id :: rest =>
    match P.deleteRecord zone id with
    | .error _ => ([.deleteRec zone id], false)
    | .ok _ =>
      let r := cleanupDeletes P zone rest
      (.deleteRec zone id :: r.1, r.2)

/-- `OVHDNSChallenge.cleanup_old_challenge_records` (lines 45–63): list the
TXT records at the challenge name, delete each, refresh the zone — all inside
a `try` whose `except` swallows any exception.  The method touches no state
and never raises; its observable behaviour is its event list. -/
def cleanup_old_challenge_records (P : Provider) (domain subdomain : String) :
    List Ev :=
  let zone := get_zone domain
  let record_name := recordNameFor subdomain
  Ev.cleanupCall domain subdomain ::
    match P.listTxt zone record_name with
    | .error _ => [.listRecords zone record_name]
    | .ok ids =>
      if ids.isEmpty then [.listRecords zone record_name]
      else
        let r := cleanupDeletes P zone ids
        if r.2 then .listRecords zone record_name :: r.1 ++ [.refresh zone]
        else .listRecords zone record_name :: r.1

/-- Result of `create_txt_record`. -/
structure CreateRecOut where
  evs : List Ev
  tbl : RecordTable
  res : Except String Nat
deriving DecidableEq

/-- `OVHDNSChallenge.create_txt_record` (lines 65–92): create the record via
the provider; on success store the id in `record_ids` under
`f"{record_name}:{value}"` and then refresh the zone; any provider exception
(from the create or from the refresh) is re-raised. -/
def create_txt_record (P : Provider) (tbl : RecordTable)
    (domain subdomain value : String) : CreateRecOut :=
  let zone := get_zone domain
  let record_name := recordNameFor subdomain
  match P.create zone record_name value with
  | .error e => ⟨[.createRec zone record_name value], tbl, .error e⟩
  | .ok record_id =>
    let tbl1 := tableInsert tbl (recordKey record_name value) record_id
    match P.refreshZone zone with
    | .error e => ⟨[.createRec zone record_name value, .refresh zone], tbl1, .error e⟩
    | .ok _ => ⟨[.createRec zone record_name value, .refresh zone], tbl1, .ok record_id⟩

/-- Result of `delete_txt_record` (the method never raises). -/
structure DeleteRecOut where
  evs : List Ev
  tbl : RecordTable
deriving DecidableEq

/-- The shared body of both branches of `delete_txt_record`: look `key` up in
the table; when present, `client.delete` then `client.post refresh` then
`del record_ids[key]` inside a `try` whose `except` swallows any exception
(so the entry is removed only when both provider calls succeed); when absent,
do nothing. -/
def deleteByKey (P : Provider) (tbl : RecordTable) (zone key : String) :
    DeleteRecOut :=
  match tableLookup tbl key with
  | none => ⟨[], tbl⟩
  | some record_id =>
    match P.deleteRecord zone record_id with
    | .error _ => ⟨[.deleteRec zone record_id], tbl⟩
    | .ok _ =>
      match P.refreshZone zone with
      | .error _ => ⟨[.deleteRec zone record_id, .refresh zone], tbl⟩
      | .ok _ => ⟨[.deleteRec zone record_id, .refresh zone], tableErase tbl key⟩

/-- `OVHDNSChallenge.delete_txt_record` (lines 94–125): `if value:` (a
provided, nonempty value) selects the `f"{record_name}:{value}"`-keyed
deletion; otherwise the legacy branch keyed by `record_name` alone runs. -/
def delete_txt_record (P : Provider) (tbl : RecordTable)
    (domain subdomain : String) (value : Option String) : DeleteRecOut :=
  let zone := get_zone domain
  let record_name := recordNameFor subdomain
  match value with
  | some v =>
    if v = "" then deleteByKey P tbl zone record_name
    else deleteByKey P tbl zone (recordKey record_name v)
  | none => deleteByKey P tbl zone record_name

/-! ## ChallengeGrouper

`request_certificate` step 1 (lines 204–248): one DNS-01 challenge descriptor
per authorization, grouped into the insertion-ordered dict
`challenges_by_record` keyed by `(base_domain, subdomain)`. -/

/-- One per-domain challenge descriptor: the authorization's identifier value
(possibly wildcard-prefixed) and the challenge's validation string.  The
order/authorization wire objects are opaque collaborator data and carry no
further information the orchestration consumes. -/
structure Desc where
  domain : String
  validation : String
deriving DecidableEq, Repr

/-- One value of the `challenges_by_record` dict. -/
structure GroupInfo where
  base_domain : String
  subdomain : String
  validations : List String
  domains : List String
deriving DecidableEq, Repr

/-- One entry of the insertion-ordered `challenges_by_record` dict. -/
abbrev GroupEntry := (String × String) × GroupInfo

/-- The `challenges_by_record` dict, in insertion order. -/
abbrev Groups := List GroupEntry

/-- Append a descriptor to the existing group stored under `key`. -/
def updateGroup (gs : Groups) (key : String × String) (d : Desc) : Groups :=
  gs.map (fun g =>
    if g.1 = key then
      (g.1, { g.2 with
              validations := g.2.validations ++ [d.validation]
              domains := g.2.domains ++ [d.domain] })
    else g)

/-- `record_key in challenges_by_record`. -/
def hasKey (gs : Groups) (key : String × String) : Bool :=
  gs.any (fun g => g.1 = key)

/-- Process one authorization of the collection loop: resolve the record
location and insert/append into the dict. -/
def addDesc (gs : Groups) (d : Desc) : Groups :=
  let loc := resolveLoc d.domain
  if hasKey gs loc then updateGroup gs loc d
  else gs ++ [(loc, ⟨loc.1, loc.2, [d.validation], [d.domain]⟩)]

/-- Step 1 in full: fold the authorizations in order into the dict. -/
def groupChallenges (ds : List Desc) : Groups :=
  ds.foldl addDesc []

/-- The `(base_domain, subdomain)` location of a group entry. -/
def groupLoc (g : GroupEntry) : String × String :=
  (g.2.base_domain, g.2.subdomain)

/-- The flattened `domain_name` iteration order used by steps 4, 5 and 6
(groups in dict order, then each group's challenges in order). -/
def groupDomains : Groups → List String
  | [] => []
  | g :: rest => g.2.domains ++ groupDomains rest

/-! ## RecordLifecycleCoordinator: cleanup, create and verify phases -/

/-- Step 2's pre-cleanup loop (lines 254–263): iterate the groups, skipping a
location already in the `cleaned_locations` set, otherwise calling
`cleanup_old_challenge_records` and adding the location to the set. -/
def cleanupPhase (P : Provider) (seen : List (String × String)) :
    Groups → List Ev
  | [] => []
  | g :: rest =>
    let lk := groupLoc g
    if lk ∈ seen then cleanupPhase P seen rest
    else
      cleanup_old_challenge_records P g.2.base_domain g.2.subdomain ++
        cleanupPhase P (seen ++ [lk]) rest

/-- Result of the create phase: events, the handler table, the
`dns_records_created` list of `(base_domain, subdomain, validation)` triples,
and the first raised `create_txt_record` exception (if any), which aborts the
phase and propagates. -/
structure CreateOut where
  evs : List Ev
  tbl : RecordTable
  created : List (String × String × String)
  err : Option String
deriving DecidableEq

/-- The inner loop of step 2 (lines 279–281): one `create_txt_record` per
validation value of one group, appending to `dns_records_created` after each
successful create; the first exception aborts everything. -/
def createGroupRecords (P : Provider) (tbl : RecordTable)
    (base_domain subdomain : String) : List String → CreateOut
  | [] => ⟨[], tbl, [], none⟩
  | v :: rest =>
    let r := create_txt_record P tbl base_domain subdomain v
    match r.res with
    | .error e => ⟨r.evs, r.tbl, [], some e⟩
    | .ok _ =>
      let r2 := createGroupRecords P r.tbl base_domain subdomain rest
      ⟨r.evs ++ r2.evs, r2.tbl, (base_domain, subdomain, v) :: r2.created, r2.err⟩

/-- Step 2's create loop over the groups (lines 266–281). -/
def createPhase (P : Provider) (tbl : RecordTable) : Groups → CreateOut
  | [] => ⟨[], tbl, [], none⟩
  | g :: rest =>
    let r := createGroupRecords P tbl g.2.base_domain g.2.subdomain g.2.validations
    match r.err with
    | some e => ⟨r.evs, r.tbl, r.created, some e⟩
    | none =>
      let r2 := createPhase P r.tbl rest
      ⟨r.evs ++ r2.evs, r2.tbl, r.created ++ r2.created, r2.err⟩

/-- The record-detail reads of one group's verification (lines 306–314):
fetch each listed id's target, strip quotes, and keep the values found among
the group's validations (`found_values`, duplicates included).  `none` means
some read raised, aborting the group's check (caught by the surrounding
`except`). -/
def collectFound (P : Provider) (zone : String) (validations : List String) :
    List Nat → List Ev × Option (List String)
  | [] => ([], some [])
  | id :: rest =>
    match P.getTarget zone id with
    | .error _ => ([.getRecord zone id], none)
    | .ok target =>
      let r := collectFound P zone validations rest
      let clean := stripQuotes target
      (.getRecord zone id :: r.1,
       r.2.map (fun l => if validations.contains clean then clean :: l else l))

/-- One group's verification check (lines 295–322): list the TXT records,
read each target, and pass iff no call raised and
`len(found_values) == len(validations)`. -/
def verifyGroup (P : Provider) (info : GroupInfo) : List Ev × Bool :=
  let zone := get_zone info.base_domain
  let record_name := recordNameFor info.subdomain
  match P.listTxt zone record_name with
  | .error _ => ([.listRecords zone record_name], false)
  | .ok ids =>
    let r := collectFound P zone info.validations ids
    match r.2 with
    | none => (.listRecords zone record_name :: r.1, false)
    | some found =>
      (.listRecords zone record_name :: r.1,
       decide (found.length = info.validations.length))

/-- Result of the verification phase: events and the `all_records_present`
flag — a `Bool`, not an `Except`: this phase cannot raise. -/
structure VerifyOut where
  evs : List Ev
  allPresent : Bool
deriving DecidableEq

/-- The verification loop over the groups (lines 285–322):
`all_records_present` starts `True` and is cleared by any group whose check
fails, i.e. it ends as the conjunction of the per-group checks. -/
def verifyPhase (P : Provider) : Groups → VerifyOut
  | [] => ⟨[], true⟩
  | g :: rest =>
    let r := verifyGroup P g.2
    let r2 := verifyPhase P rest
    ⟨r.1 ++ r2.evs, r.2 && r2.allPresent⟩

/-! ## PropagationGate, answering, polling, teardown -/

/-- `DNS_PROPAGATION_WAIT` from `config.py`. -/
def DNS_PROPAGATION_WAIT : Nat := 60

/-- Step 4 (lines 335–348): a best-effort public-resolver probe of
`_acme-challenge.{domain_name}` per challenge, every failure swallowed; its
answers are only printed, so only the probe events are observable. -/
def probePhase : List String → List Ev
  | [] => []
  | d :: rest => .probe ("_acme-challenge." ++ d) :: probePhase rest

/-- Result of the answer phase. -/
structure AnswerOut where
  evs : List Ev
  err : Option Err
deriving DecidableEq

/-- Step 5 (lines 352–358): answer every challenge in group order; an
exception propagates immediately (note: this loop is *outside* the
`try` of step 6). -/
def answerPhase (A : Acme) : List String → AnswerOut
  | [] => ⟨[], none⟩
  | d :: rest =>
    match A.answerChallenge d with
    | .error e => ⟨[.answer d], some (.answerFailed d e)⟩
    | .ok _ =>
      let r := answerPhase A rest
      ⟨.answer d :: r.evs, r.err⟩

/-- Result of a poll loop / the poll phase: events, the clock after the loop,
and the raised error (if any). -/
structure PollOut where
  evs : List Ev
  time : Nat
  err : Option Err
deriving DecidableEq

/-- The `while time.time() < challenge_deadline` loop of step 6
(lines 372–394) for one domain: poll; stop on `Valid`; raise on `Invalid`;
otherwise sleep 5 seconds and retry; when the deadline check fails the status
is still non-terminal and the `TimeoutError` is raised.  With
`challenge_deadline = start + 90` and a 5-second sleep per non-terminal poll,
the guard admits exactly the polls at elapsed times 0, 5, …, 85 — i.e. at most
18 polls — so the loop is embedded with an iteration budget of 18, the clock
advancing 5 per sleep. -/
def pollLoopFuel (A : Acme) (d : String) : Nat → Nat → Nat → PollOut
  | 0, now, _ => ⟨[], now, some (.pollTimeout d)⟩
  | fuel + 1, now, k =>
    match A.pollAuth d k with
    | .valid => ⟨[.poll d], now, none⟩
    | .invalid => ⟨[.poll d], now, some (.challengeFailed d)⟩
    | .pending =>
      let r := pollLoopFuel A d fuel (now + 5) (k + 1)
      ⟨.poll d :: .sleep 5 :: r.evs, r.time, r.err⟩

/-- One domain's bounded poll loop, started at clock `now` (its deadline is 90
seconds from this start). -/
def pollDomain (A : Acme) (d : String) (now : Nat) : PollOut :=
  pollLoopFuel A d 18 now 0

/-- Step 6's outer loops: poll the domains sequentially in group order; the
first raised error aborts the remaining domains. -/
def pollPhase (A : Acme) (now : Nat) : List String → PollOut
  | [] => ⟨[], now, none⟩
  | d :: rest =>
    let r := pollDomain A d now
    match r.err with
    | some e => ⟨r.evs, r.time, some e⟩
    | none =>
      let r2 := pollPhase A r.time rest
      ⟨r.evs ++ r2.evs, r2.time, r2.err⟩

/-- Result of the teardown loop. -/
structure TearOut where
  evs : List Ev
  tbl : RecordTable
deriving DecidableEq

/-- The cleanup loop over `dns_records_created` (lines 400–401 on the failure
path, lines 406–407 on the success path): one `delete_txt_record` per created
triple; the method never raises. -/
def teardown (P : Provider) (tbl : RecordTable) :
    List (String × String × String) → TearOut
  | [] => ⟨[], tbl⟩
  | t :: rest =>
    let r := delete_txt_record P tbl t.1 t.2.1 (some t.2.2)
    let r2 := teardown P r.tbl rest
    ⟨r.evs ++ r2.evs, r2.tbl⟩

/-! ## CertificateIssuanceOrchestrator: `request_certificate` -/

/-- Observable outcome of one `request_certificate` call: the events of every
collaborator call made, the handler's final `record_ids` table, and the
returned/raised outcome. -/
structure RunOut where
  trace : List Ev
  tbl : RecordTable
  result : Except Err Unit
deriving DecidableEq

/-- `ACMEClient.request_certificate` (lines 184–415) from the point where the
challenge descriptors are in hand, with a fresh handler (`record_ids = {}`):
group the challenges; pre-clean every distinct location; create the records
(an exception propagates with no teardown); verify (advisory); wait for
propagation; probe public DNS (advisory); answer every challenge (an
exception propagates with *no* teardown — step 5 sits outside step 6's
`try`); poll every domain (an exception triggers the teardown loop, then
re-raises); on success tear the records down and finalize. -/
def requestCertificate (P : Provider) (A : Acme) (ds : List Desc) : RunOut :=
  let groups := groupChallenges ds
  let cleanupEvs := cleanupPhase P [] groups
  let co := createPhase P [] groups
  match co.err with
  | some e => ⟨cleanupEvs ++ co.evs, co.tbl, .error (.provider e)⟩
  | none =>
    let vo := verifyPhase P groups
    let doms := groupDomains groups
    let ao := answerPhase A doms
    let pre := cleanupEvs ++ co.evs ++ vo.evs ++
      Ev.sleep DNS_PROPAGATION_WAIT :: probePhase doms ++ ao.evs
    match ao.err with
    | some e => ⟨pre, co.tbl, .error e⟩
    | none =>
      let po := pollPhase A 0 doms
      let td := teardown P co.tbl co.created
      match po.err with
      | some e => ⟨pre ++ po.evs ++ td.evs, td.tbl, .error e⟩
      | none =>
        match A.finalizeOrder with
        | .error m =>
          ⟨pre ++ po.evs ++ td.evs ++ [.finalize], td.tbl, .error (.finalizeFailed m)⟩
        | .ok _ =>
          ⟨pre ++ po.evs ++ td.evs ++ [.finalize], td.tbl, .ok ()⟩

/-! ## Auxiliary definitions used by the theorems -/

/-- Is this event an invocation of `cleanup_old_challenge_records`? -/
def isCleanupCallEv : Ev → Bool
  | .cleanupCall _ _ => true
  | _ => false

/-- Is this event a provider record-creation call? -/
def isCreateRecEv : Ev → Bool
  | .createRec _ _ _ => true
  | _ => false

/-- The arguments of the `cleanup_old_challenge_records` invocations recorded
in a trace, in order. -/
def cleanupCallsOf (evs : List Ev) : List (String × String) :=
  evs.filterMap (fun e =>
    match e with
    | .cleanupCall b s => some (b, s)
    | _ => none)

/-- Deduplication keeping first occurrences, threaded through an explicit
seen-set — the shape of the `cleaned_locations` bookkeeping. -/
def firstSeenAux (seen : List (String × String)) :
    List (String × String) → List (String × String)
  | [] => []
  | x :: rest =>
    if x ∈ seen then firstSeenAux seen rest
    else x :: firstSeenAux (seen ++ [x]) rest

/-- The distinct locations of a list, first occurrences kept, in order. -/
def firstSeen (xs : List (String × String)) : List (String × String) :=
  firstSeenAux [] xs

/-- The quote-stripped target values the provider reports for the given record
ids (reads that raise contribute nothing). -/
def reportedTargets (P : Provider) (zone : String) (ids : List Nat) : List String :=
  ids.filterMap (fun i =>
    match P.getTarget zone i with
    | .ok t => some (stripQuotes t)
    | .error _ => none)

/-- Modelled from the spec (§4.4 step 3, amended): the per-group condition
under which the verification check passes — the list call succeeded, every
per-record read succeeded, and the number of reported (quote-stripped) values
matching some expected validation equals the expected count. -/
def groupCheckSpec (P : Provider) (info : GroupInfo) : Prop :=
  ∃ ids,
    P.listTxt (get_zone info.base_domain) (recordNameFor info.subdomain) = .ok ids ∧
    (∀ i ∈ ids, ∃ t, P.getTarget (get_zone info.base_domain) i = .ok t) ∧
    ((reportedTargets P (get_zone info.base_domain) ids).filter
        (fun t => info.validations.contains t)).length = info.validations.length

/-- Events of `n` non-terminal poll rounds (a poll then a 5-second sleep). -/
def pendEvs (d : String) : Nat → List Ev
  | 0 => []
  | n + 1 => .poll d :: .sleep 5 :: pendEvs d n

/-- Index (relative to poll number `k`) of the first poll within the next
`fuel` polls whose status is terminal, if any. -/
def firstTerminalAux (A : Acme) (d : String) (k : Nat) : Nat → Option Nat
  | 0 => none
  | fuel + 1 =>
    if A.pollAuth d k = .pending then (firstTerminalAux A d (k + 1) fuel).map (· + 1)
    else some 0

/-- Modelled from the spec (§4.6, claim C5's words): the intended outcome of
one domain's poll loop — repeatedly poll; stop with success at the first
`Valid`; raise an error naming the domain at the first `Invalid`; sleep a
fixed 5 seconds between non-terminal polls; and raise a timeout naming the
domain if no terminal status arrives within the 90-second deadline (which
admits the polls at elapsed times 0, 5, …, 85). -/
def pollSpec (A : Acme) (d : String) (now : Nat) : PollOut :=
  match firstTerminalAux A d 0 18 with
  | some m =>
    ⟨pendEvs d m ++ [.poll d], now + 5 * m,
     if A.pollAuth d m = .valid then none else some (.challengeFailed d)⟩
  | none => ⟨pendEvs d 18, now + 90, some (.pollTimeout d)⟩

/-! ### Concrete collaborators for witnesses and counterexamples -/

/-- A provider on which every call succeeds (fresh zone: no listed records). -/
def okProvider : Provider :=
  { listTxt := fun _ _ => .ok []
    getTarget := fun _ _ => .ok ""
    create := fun _ _ _ => .ok 1
    deleteRecord := fun _ _ => .ok ()
    refreshZone := fun _ => .ok () }

/-- `okProvider` with listing and record reads failing. -/
def listErrProvider : Provider :=
  { okProvider with
    listTxt := fun _ _ => .error "list failed"
    getTarget := fun _ _ => .error "get failed" }

/-- `okProvider` with record deletion failing. -/
def delErrProvider : Provider :=
  { okProvider with deleteRecord := fun _ _ => .error "delete failed" }

/-- `okProvider` with the zone refresh failing. -/
def refreshErrProvider : Provider :=
  { okProvider with refreshZone := fun _ => .error "refresh failed" }

/-- A provider reporting two TXT records that both carry the (quoted) target
value `"v1"`. -/
def dupTargetProvider : Provider :=
  { okProvider with
    listTxt := fun _ _ => .ok [1, 2]
    getTarget := fun _ _ => .ok "\"v1\"" }

/-- An ACME server on which everything succeeds at once. -/
def allValidAcme : Acme :=
  { answerChallenge := fun _ => .ok ()
    pollAuth := fun _ _ => .valid
    finalizeOrder := .ok () }

/-- `allValidAcme` but answering any challenge raises. -/
def ansFailAcme : Acme :=
  { allValidAcme with answerChallenge := fun _ => .error "answer failed" }

/-- `allValidAcme` but every authorization polls `Invalid`. -/
def invalidAcme : Acme :=
  { allValidAcme with pollAuth := fun _ _ => .invalid }

/-- `allValidAcme` but the second poll of any authorization is terminal
(`Valid`), the first non-terminal. -/
def slowValidAcme : Acme :=
  { allValidAcme with pollAuth := fun _ k => if k = 0 then .pending else .valid }

/-! ## Table lemmas -/

theorem tableLookup_insert_self (tbl : RecordTable) (k : String) (v : Nat) :
    tableLookup (tableInsert tbl k v) k = some v := by
  unfold tableInsert
  by_cases h : (tableLookup tbl k).isSome
  · rw [if_pos h]
    induction tbl with
    | nil => simp [tableLookup] at h
    | cons p rest ih =>
      by_cases hp : p.1 = k
      · simp [tableLookup, hp]
      · rw [List.map_cons, if_neg hp]
        have h' : (tableLookup rest k).isSome := by
          simpa [tableLookup, hp] using h
        simpa [tableLookup, hp] using ih h'
  · rw [if_neg h]
    induction tbl with
    | nil => simp [tableLookup]
    | cons p rest ih =>
      have hp : ¬p.1 = k := by
        intro hk
        simp [tableLookup, hk] at h
      have h' : ¬(tableLookup rest k).isSome := by
        simpa [tableLookup, hp] using h
      simpa [tableLookup, hp] using ih h'

theorem tableKeys_insert (tbl : RecordTable) (key : String) (v : Nat) :
    ∀ k ∈ tableKeys (tableInsert tbl key v), k ∈ tableKeys tbl ∨ k = key := by
  intro k hk
  unfold tableInsert at hk
  by_cases h : (tableLookup tbl key).isSome
  · rw [if_pos h] at hk
    simp only [tableKeys, List.map_map, List.mem_map] at hk
    obtain ⟨p, hp, hpk⟩ := hk
    by_cases hpe : p.1 = key
    · right
      simp only [Function.comp, if_pos hpe] at hpk
      exact hpk.symm
    · left
      simp only [Function.comp, if_neg hpe] at hpk
      exact hpk ▸ List.mem_map_of_mem _ hp
  · rw [if_neg h] at hk
    simp only [tableKeys, List.map_append, List.mem_append] at hk
    rcases hk with hk | hk
    · exact Or.inl hk
    · simp at hk
      exact Or.inr hk

theorem tableLookup_none_not_mem (tbl : RecordTable) (k : String)
    (h : tableLookup tbl k = none) : k ∉ tableKeys tbl := by
  induction tbl with
  | nil => simp [tableKeys]
  | cons p rest ih =>
    by_cases hp : p.1 = k
    · simp [tableLookup, hp] at h
    · simp only [tableLookup, if_neg hp] at h
      simp only [tableKeys, List.map_cons, List.mem_cons]
      rintro (hk | hk)
      · exact hp hk.symm
      · exact ih h hk

theorem tableKeys_erase (tbl : RecordTable) (key : String) :
    ∀ k ∈ tableKeys (tableErase tbl key), k ∈ tableKeys tbl ∧ k ≠ key := by
  intro k hk
  unfold tableErase at hk
  simp only [tableKeys, List.mem_map] at hk
  obtain ⟨p, hp, hpk⟩ := hk
  rw [List.mem_filter] at hp
  refine ⟨hpk ▸ List.mem_map_of_mem _ hp.1, ?_⟩
  intro hkey
  have hne : p.1 ≠ key := by simpa using hp.2
  exact hne (hpk ▸ hkey)

/-! ## C3: the record-location resolver -/

/-- C3, as stated, fails: the source computes `subdomain` with Python
`str.replace`, which removes **every** occurrence of `"." + zone`, not only a
suffix.  On `"a.example.com.example.com"` the code yields subdomain `"a"`
while the claimed suffix-removal semantics (`resolveLocSpec`) yields
`"a.example.com"`. -/
theorem c3_counterexample :
    resolveLoc "a.example.com.example.com" ≠
      resolveLocSpec "a.example.com.example.com" ∧
    resolveLoc "a.example.com.example.com" = ("example.com", "a") ∧
    resolveLocSpec "a.example.com.example.com" = ("example.com", "a.example.com") := by
  decide

/-- C3 (amended): `resolve` removes every occurrence of `"*."` and every
occurrence of `"." + zone` (Python `str.replace` semantics), not only a
leading marker and a suffix; the zone is the last two dot-separated labels
(the whole cleaned domain when it has fewer than two labels, never failing),
the subdomain is set to the empty string exactly when the replacement leaves
the cleaned domain unchanged, and the claim's concrete examples hold:
`resolve("example.com") = resolve("*.example.com") = ("example.com", "")` and
`resolve("*.sub.example.com") = ("example.com", "sub")`. -/
theorem c3_resolver :
    (∀ d : String,
      (resolveLoc d).1 =
        (let parts := splitOnChar '.' (pyReplace d "*." "")
         if 2 ≤ parts.length then joinDot (parts.drop (parts.length - 2))
         else pyReplace d "*." "") ∧
      (resolveLoc d).2 =
        (let clean := pyReplace d "*." ""
         let sub0 := pyReplace clean ("." ++ (resolveLoc d).1) ""
         if sub0 = clean then "" else sub0)) ∧
    resolveLoc "example.com" = ("example.com", "") ∧
    resolveLoc "*.example.com" = ("example.com", "") ∧
    resolveLoc "*.sub.example.com" = ("example.com", "sub") := by
  constructor
  · intro d
    exact ⟨rfl, rfl⟩
  · decide

/-! ## C9 and C10: the handle-table behaviour of delete and create -/

/-- C9: calling `delete_txt_record` with a provided (truthy) value whose
`f"{record_name}:{value}"` key is not in `record_ids` is a silent no-op: no
provider call is made (no events), no error can be raised (the method's
result type has no error channel), and the table is unchanged. -/
theorem c9_delete_absent_noop (P : Provider) (tbl : RecordTable)
    (domain subdomain v : String) (hv : v ≠ "")
    (habs : tableLookup tbl (recordKey (recordNameFor subdomain) v) = none) :
    delete_txt_record P tbl domain subdomain (some v) = ⟨[], tbl⟩ := by
  unfold delete_txt_record deleteByKey
  simp [hv, habs]

/-- Witness for `c9_delete_absent_noop` at a concrete input. -/
theorem c9_delete_absent_noop_witness :
    delete_txt_record okProvider [("_acme-challenge:v1", 1)] "a.com" "" (some "v2") =
      ⟨[], [("_acme-challenge:v1", 1)]⟩ :=
  c9_delete_absent_noop okProvider [("_acme-challenge:v1", 1)] "a.com" "" "v2"
    (by decide) (by decide)

/-- C10: when the provider create succeeds with id `id` and the subsequent
zone refresh raises, `create_txt_record` re-raises the refresh error, yet the
created record's handle is already stored in `record_ids` under
`f"{record_name}:{value}"` — the store happens between the create and the
refresh. -/
theorem c10_create_stores_before_refresh (P : Provider) (tbl : RecordTable)
    (domain subdomain v : String) (id : Nat) (e : String)
    (hc : P.create (get_zone domain) (recordNameFor subdomain) v = .ok id)
    (hr : P.refreshZone (get_zone domain) = .error e) :
    (create_txt_record P tbl domain subdomain v).res = .error e ∧
    tableLookup (create_txt_record P tbl domain subdomain v).tbl
      (recordKey (recordNameFor subdomain) v) = some id := by
  unfold create_txt_record
  simp only [hc, hr]
  exact ⟨by simp, tableLookup_insert_self tbl _ id⟩

/-- Witness for `c10_create_stores_before_refresh` at a concrete input. -/
theorem c10_create_stores_before_refresh_witness :
    (create_txt_record refreshErrProvider [] "a.com" "" "v1").res =
      .error "refresh failed" ∧
    tableLookup (create_txt_record refreshErrProvider [] "a.com" "" "v1").tbl
      (recordKey (recordNameFor "") "v1") = some 1 :=
  c10_create_stores_before_refresh refreshErrProvider [] "a.com" "" "v1" 1
    "refresh failed" (by decide) (by decide)

/-! ## C5: the per-domain poll loop -/

theorem pollLoopFuel_spec (A : Acme) (d : String) :
    ∀ fuel k now, pollLoopFuel A d fuel now k =
      match firstTerminalAux A d k fuel with
      | some m =>
        ⟨pendEvs d m ++ [.poll d], now + 5 * m,
         if A.pollAuth d (k + m) = .valid then none
         else some (.challengeFailed d)⟩
      | none => ⟨pendEvs d fuel, now + 5 * fuel, some (.pollTimeout d)⟩ := by
  intro fuel
  induction fuel with
  | zero =>
    intro k now
    simp [pollLoopFuel, firstTerminalAux, pendEvs]
  | succ fuel ih =>
    intro k now
    cases hs : A.pollAuth d k with
    | valid => simp [pollLoopFuel, firstTerminalAux, hs, pendEvs]
    | invalid => simp [pollLoopFuel, firstTerminalAux, hs, pendEvs]
    | pending =>
      have hr := ih (k + 1) (now + 5)
      simp only [pollLoopFuel, hs]
      rw [hr]
      simp only [firstTerminalAux, hs, if_true]
      cases haux : firstTerminalAux A d (k + 1) fuel with
      | none =>
        simp only [haux, Option.map_none']
        have hn : now + 5 + 5 * fuel = now + 5 * (fuel + 1) := by omega
        simp [pendEvs, hn]
      | some m =>
        simp only [haux, Option.map_some']
        have hk : k + 1 + m = k + (m + 1) := by omega
        have hn : now + 5 + 5 * m = now + 5 * (m + 1) := by omega
        simp [pendEvs, hk, hn]

/-- C5: for every domain, the poll loop of step 6 behaves exactly as
specified: it repeatedly calls the ACME collaborator's poll; it stops
successfully at the first `Valid`; it raises an error naming the domain at
the first `Invalid`; it sleeps a fixed 5 seconds between polls that return
neither terminal status; and if no poll within the 90-second deadline
measured from the domain's poll start (i.e. none of the polls at elapsed
times 0, 5, …, 85) is terminal, it raises a timeout error naming the domain,
90 seconds after the start. -/
theorem c5_poll_loop (A : Acme) (d : String) (now : Nat) :
    pollDomain A d now = pollSpec A d now := by
  unfold pollDomain pollSpec
  rw [pollLoopFuel_spec]
  cases haux : firstTerminalAux A d 0 18 with
  | none => norm_num
  | some m => simp [Nat.zero_add]

/-! ## C2: the verification phase's allPresent flag -/

theorem collectFound_some (P : Provider) (zone : String) (vals : List String) :
    ∀ ids found, (collectFound P zone vals ids).2 = some found →
      (∀ i ∈ ids, ∃ t, P.getTarget zone i = .ok t) ∧
      found = (reportedTargets P zone ids).filter (fun t => vals.contains t) := by
  intro ids
  induction ids with
  | nil =>
    intro found h
    simp only [collectFound, Option.some.injEq] at h
    subst h
    simp [reportedTargets]
  | cons i rest ih =>
    intro found h
    cases hg : P.getTarget zone i with
    | error e => simp [collectFound, hg] at h
    | ok t =>
      simp only [collectFound, hg] at h
      cases hc : (collectFound P zone vals rest).2 with
      | none => rw [hc] at h; simp at h
      | some l =>
        rw [hc] at h
        simp only [Option.map_some', Option.some.injEq] at h
        obtain ⟨hall, hl⟩ := ih l hc
        constructor
        · intro j hj
          rcases List.mem_cons.mp hj with hj | hj
          · exact ⟨t, hj ▸ hg⟩
          · exact hall j hj
        · rw [← h, hl]
          simp only [reportedTargets, List.filterMap_cons, hg]
          by_cases hct : stripQuotes t ∈ vals
          · simp [List.filter_cons, hct]
          · simp [List.filter_cons, hct]

theorem collectFound_of_ok (P : Provider) (zone : String) (vals : List String) :
    ∀ ids, (∀ i ∈ ids, ∃ t, P.getTarget zone i = .ok t) →
      (collectFound P zone vals ids).2 =
        some ((reportedTargets P zone ids).filter (fun t => vals.contains t)) := by
  intro ids
  induction ids with
  | nil =>
    intro _
    simp [collectFound, reportedTargets]
  | cons i rest ih =>
    intro hall
    obtain ⟨t, ht⟩ := hall i (List.mem_cons_self i rest)
    have hrest := ih (fun j hj => hall j (List.mem_cons_of_mem i hj))
    simp only [collectFound, ht, hrest, Option.map_some']
    simp only [reportedTargets, List.filterMap_cons, ht]
    by_cases hct : stripQuotes t ∈ vals
    · simp [List.filter_cons, hct]
    · simp [List.filter_cons, hct]

theorem verifyGroup_true_iff (P : Provider) (info : GroupInfo) :
    (verifyGroup P info).2 = true ↔ groupCheckSpec P info := by
  unfold verifyGroup groupCheckSpec
  cases hl : P.listTxt (get_zone info.base_domain) (recordNameFor info.subdomain) with
  | error e => simp [hl]
  | ok ids =>
    simp only [hl]
    cases hc : (collectFound P (get_zone info.base_domain) info.validations ids).2 with
    | none =>
      simp only [hc, Bool.false_eq_true, false_iff]
      rintro ⟨ids2, hids2, hreads, hlen⟩
      injection hids2 with hh
      subst hh
      have hsome := collectFound_of_ok P (get_zone info.base_domain) info.validations ids hreads
      rw [hc] at hsome
      exact Option.noConfusion hsome
    | some found =>
      simp only [hc, decide_eq_true_eq]
      constructor
      · intro hlen
        obtain ⟨hreads, hf⟩ :=
          collectFound_some P (get_zone info.base_domain) info.validations ids found hc
        exact ⟨ids, rfl, hreads, by rw [← hf]; exact hlen⟩
      · rintro ⟨ids2, hids2, hreads, hlen⟩
        injection hids2 with hh
        subst hh
        obtain ⟨_, hf⟩ :=
          collectFound_some P (get_zone info.base_domain) info.validations ids found hc
        rw [hf]
        exact hlen

/-- C2, as stated, fails: `found_values` counts every provider-reported value
that matches *some* expected validation, duplicates included, so a repeated
value can stand in for a missing one.  With expected values `["v1", "v2"]`
and a provider reporting two records both carrying (quoted) `"v1"`, the
count matches (2 = 2) and `allPresent` ends `true`, yet the expected value
`"v2"` appears nowhere among the provider-reported values. -/
theorem c2_counterexample :
    (verifyPhase dupTargetProvider
        (groupChallenges [⟨"a.com", "v1"⟩, ⟨"*.a.com", "v2"⟩])).allPresent = true ∧
    groupChallenges [⟨"a.com", "v1"⟩, ⟨"*.a.com", "v2"⟩] =
      [(("a.com", ""), ⟨"a.com", "", ["v1", "v2"], ["a.com", "*.a.com"]⟩)] ∧
    dupTargetProvider.listTxt "a.com" "_acme-challenge" = .ok [1, 2] ∧
    "v2" ∉ reportedTargets dupTargetProvider "a.com" [1, 2] := by
  decide

/-- C2 (amended): `allPresent` is true iff for every group the provider list
call and every per-record read succeeded and the *count* of provider-reported
(quote-stripped) values matching some expected validation equals the group's
expected count — duplicate matches included, so this does not imply that
every expected value appears among the reported values. -/
theorem c2_verification (P : Provider) : ∀ gs : Groups,
    (verifyPhase P gs).allPresent = true ↔ ∀ g ∈ gs, groupCheckSpec P g.2 := by
  intro gs
  induction gs with
  | nil => simp [verifyPhase]
  | cons g rest ih =>
    simp only [verifyPhase, Bool.and_eq_true]
    rw [verifyGroup_true_iff, ih]
    simp [List.forall_mem_cons]

/-! ## C6: sequential polling short-circuits on the first failure -/

theorem pollLoopFuel_err_shape (A : Acme) (d : String) :
    ∀ fuel now k e, (pollLoopFuel A d fuel now k).err = some e →
      e = .challengeFailed d ∨ e = .pollTimeout d := by
  intro fuel
  induction fuel with
  | zero =>
    intro now k e h
    simp only [pollLoopFuel, Option.some.injEq] at h
    exact Or.inr h.symm
  | succ fuel ih =>
    intro now k e h
    cases hs : A.pollAuth d k with
    | valid => rw [pollLoopFuel, hs] at h; exact absurd h (by simp)
    | invalid =>
      rw [pollLoopFuel, hs] at h
      simp only [Option.some.injEq] at h
      exact Or.inl h.symm
    | pending =>
      rw [pollLoopFuel, hs] at h
      exact ih (now + 5) (k + 1) e h

theorem pollLoopFuel_poll_evs (A : Acme) (d : String) :
    ∀ fuel now k d', Ev.poll d' ∈ (pollLoopFuel A d fuel now k).evs → d' = d := by
  intro fuel
  induction fuel with
  | zero =>
    intro now k d' h
    simp [pollLoopFuel] at h
  | succ fuel ih =>
    intro now k d' h
    cases hs : A.pollAuth d k with
    | valid =>
      rw [pollLoopFuel, hs] at h
      simp only [List.mem_singleton, Ev.poll.injEq] at h
      exact h
    | invalid =>
      rw [pollLoopFuel, hs] at h
      simp only [List.mem_singleton, Ev.poll.injEq] at h
      exact h
    | pending =>
      rw [pollLoopFuel, hs] at h
      simp only [List.mem_cons] at h
      rcases h with h | h | h
      · injection h
      · injection h
      · exact ih (now + 5) (k + 1) d' h

theorem pollLoopFuel_err_time (A : Acme) (d : String) :
    ∀ fuel now now2 k,
      (pollLoopFuel A d fuel now k).err = (pollLoopFuel A d fuel now2 k).err := by
  intro fuel
  induction fuel with
  | zero => intro now now2 k; simp [pollLoopFuel]
  | succ fuel ih =>
    intro now now2 k
    cases hs : A.pollAuth d k with
    | valid => rw [pollLoopFuel, pollLoopFuel, hs]
    | invalid => rw [pollLoopFuel, pollLoopFuel, hs]
    | pending =>
      rw [pollLoopFuel, pollLoopFuel, hs]
      exact ih (now + 5) (now2 + 5) (k + 1)

theorem pollPhase_err_time (A : Acme) : ∀ ds now now2,
    (pollPhase A now ds).err = (pollPhase A now2 ds).err := by
  intro ds
  induction ds with
  | nil => intro now now2; simp [pollPhase]
  | cons d rest ih =>
    intro now now2
    have hd : (pollDomain A d now).err = (pollDomain A d now2).err :=
      pollLoopFuel_err_time A d 18 now now2 0
    simp only [pollPhase]
    cases hr : (pollDomain A d now).err with
    | some e =>
      have hr2 : (pollDomain A d now2).err = some e := by rw [← hd, hr]
      rw [hr2]
    | none =>
      have hr2 : (pollDomain A d now2).err = none := by rw [← hd, hr]
      rw [hr2]
      exact ih (pollDomain A d now).time (pollDomain A d now2).time

theorem pollPhase_fail_shape (A : Acme) :
    ∀ ds now e, (pollPhase A now ds).err = some e →
      ∃ i, ∃ hi : i < ds.length,
        (e = .challengeFailed (ds.get ⟨i, hi⟩) ∨ e = .pollTimeout (ds.get ⟨i, hi⟩)) ∧
        pollPhase A now ds = pollPhase A now (ds.take (i + 1)) ∧
        (∀ d', Ev.poll d' ∈ (pollPhase A now ds).evs → d' ∈ ds.take (i + 1)) := by
  intro ds
  induction ds with
  | nil => intro now e h; simp [pollPhase] at h
  | cons d rest ih =>
    intro now e h
    cases hr : (pollDomain A d now).err with
    | some e2 =>
      simp only [pollPhase, hr] at h
      injection h with he
      subst he
      refine ⟨0, Nat.succ_pos _, ?_, ?_, ?_⟩
      · exact pollLoopFuel_err_shape A d 18 now 0 e2 hr
      · simp [pollPhase, hr]
      · intro d' hmem
        simp only [pollPhase, hr] at hmem
        have := pollLoopFuel_poll_evs A d 18 now 0 d' hmem
        simp [this]
    | none =>
      simp only [pollPhase, hr] at h
      obtain ⟨i, hi, hshape, heq, hevs⟩ := ih (pollDomain A d now).time e h
      refine ⟨i + 1, Nat.succ_lt_succ hi, ?_, ?_, ?_⟩
      · simpa using hshape
      · simp only [List.take_succ_cons, pollPhase, hr]
        rw [heq]
      · intro d' hmem
        simp only [pollPhase, hr, List.mem_append] at hmem
        rcases hmem with hmem | hmem
        · have := pollLoopFuel_poll_evs A d 18 now 0 d' hmem
          simp [this]
        · simp only [List.take_succ_cons, List.mem_cons]
          exact Or.inr (hevs d' hmem)

/-! ## Orchestrator branch lemmas -/

theorem run_create_fail (P : Provider) (A : Acme) (ds : List Desc) (e : String)
    (hc : (createPhase P [] (groupChallenges ds)).err = some e) :
    requestCertificate P A ds =
      ⟨cleanupPhase P [] (groupChallenges ds) ++ (createPhase P [] (groupChallenges ds)).evs,
       (createPhase P [] (groupChallenges ds)).tbl,
       .error (.provider e)⟩ := by
  simp only [requestCertificate, hc]

theorem run_answer_fail (P : Provider) (A : Acme) (ds : List Desc) (e : Err)
    (hc : (createPhase P [] (groupChallenges ds)).err = none)
    (ha : (answerPhase A (groupDomains (groupChallenges ds))).err = some e) :
    (requestCertificate P A ds).result = .error e ∧
    (requestCertificate P A ds).tbl = (createPhase P [] (groupChallenges ds)).tbl := by
  simp only [requestCertificate, hc, ha]
  exact ⟨trivial, trivial⟩

theorem run_poll_fail (P : Provider) (A : Acme) (ds : List Desc) (e : Err)
    (hc : (createPhase P [] (groupChallenges ds)).err = none)
    (ha : (answerPhase A (groupDomains (groupChallenges ds))).err = none)
    (hp : (pollPhase A 0 (groupDomains (groupChallenges ds))).err = some e) :
    (requestCertificate P A ds).result = .error e ∧
    (requestCertificate P A ds).tbl =
      (teardown P (createPhase P [] (groupChallenges ds)).tbl
        (createPhase P [] (groupChallenges ds)).created).tbl := by
  simp only [requestCertificate, hc, ha, hp]
  exact ⟨trivial, trivial⟩

theorem run_poll_ok (P : Provider) (A : Acme) (ds : List Desc)
    (hc : (createPhase P [] (groupChallenges ds)).err = none)
    (ha : (answerPhase A (groupDomains (groupChallenges ds))).err = none)
    (hp : (pollPhase A 0 (groupDomains (groupChallenges ds))).err = none) :
    (requestCertificate P A ds).tbl =
      (teardown P (createPhase P [] (groupChallenges ds)).tbl
        (createPhase P [] (groupChallenges ds)).created).tbl := by
  simp only [requestCertificate, hc, ha, hp]
  cases A.finalizeOrder <;> rfl

/-- C6: when the domains are polled sequentially and a domain's authorization
fails (Invalid) or times out, the whole poll phase behaves exactly as if the
later domains were absent (no poll is ever started for them: every poll event
belongs to the first `i+1` domains), the error names the failing domain, and
— whenever that poll phase is reached in a full run (records created,
challenges answered) — the session fails with exactly that error. -/
theorem c6_fatal_short_circuit (A : Acme) (now : Nat) (ds : List String) (e : Err)
    (h : (pollPhase A now ds).err = some e) :
    ∃ i, ∃ hi : i < ds.length,
      (e = .challengeFailed (ds.get ⟨i, hi⟩) ∨ e = .pollTimeout (ds.get ⟨i, hi⟩)) ∧
      pollPhase A now ds = pollPhase A now (ds.take (i + 1)) ∧
      (∀ d', Ev.poll d' ∈ (pollPhase A now ds).evs → d' ∈ ds.take (i + 1)) ∧
      (∀ (P : Provider) (ds0 : List Desc),
        groupDomains (groupChallenges ds0) = ds →
        (createPhase P [] (groupChallenges ds0)).err = none →
        (answerPhase A (groupDomains (groupChallenges ds0))).err = none →
        (requestCertificate P A ds0).result = .error e) := by
  obtain ⟨i, hi, hshape, heq, hevs⟩ := pollPhase_fail_shape A ds now e h
  refine ⟨i, hi, hshape, heq, hevs, ?_⟩
  intro P ds0 hdoms hc ha
  have hp : (pollPhase A 0 (groupDomains (groupChallenges ds0))).err = some e := by
    rw [hdoms, pollPhase_err_time A ds 0 now]
    exact h
  exact (run_poll_fail P A ds0 e hc ha hp).1

/-- Witness for `c6_fatal_short_circuit` at a concrete input: one domain whose
authorization polls `Invalid`. -/
theorem c6_fatal_short_circuit_witness :
    pollPhase invalidAcme 0 ["a.com"] =
      pollPhase invalidAcme 0 ((["a.com"] : List String).take 1) := by
  obtain ⟨i, hi, _, heq, _, _⟩ :=
    c6_fatal_short_circuit invalidAcme 0 ["a.com"] (.challengeFailed "a.com") (by decide)
  have hz : i = 0 := Nat.lt_one_iff.mp hi
  subst hz
  exact heq

/-! ## C7: cleanup once per distinct location, and cleanup-before-create -/

theorem cleanupDeletes_evs_shape (P : Provider) (zone : String) :
    ∀ ids e, e ∈ (cleanupDeletes P zone ids).1 → ∃ i, e = Ev.deleteRec zone i := by
  intro ids
  induction ids with
  | nil => intro e he; simp [cleanupDeletes] at he
  | cons i rest ih =>
    intro e he
    cases hd : P.deleteRecord zone i with
    | error msg =>
      rw [cleanupDeletes, hd] at he
      simp only [List.mem_singleton] at he
      exact ⟨i, he⟩
    | ok u =>
      rw [cleanupDeletes, hd] at he
      simp only [List.mem_cons] at he
      rcases he with he | he
      · exact ⟨i, he⟩
      · exact ih e he

theorem cleanup_old_evs_shape (P : Provider) (b s : String) :
    ∀ e ∈ cleanup_old_challenge_records P b s,
      e = Ev.cleanupCall b s ∨
      (∃ z rn, e = .listRecords z rn) ∨
      (∃ z i, e = .deleteRec z i) ∨
      (∃ z, e = .refresh z) := by
  intro e he
  simp only [cleanup_old_challenge_records, List.mem_cons] at he
  rcases he with he | he
  · exact Or.inl he
  · cases hl : P.listTxt (get_zone b) (recordNameFor s) with
    | error msg =>
      rw [hl] at he
      simp only [List.mem_singleton] at he
      exact Or.inr (Or.inl ⟨_, _, he⟩)
    | ok ids =>
      rw [hl] at he
      dsimp only at he
      by_cases hempty : ids.isEmpty
      · rw [if_pos hempty] at he
        simp only [List.mem_singleton] at he
        exact Or.inr (Or.inl ⟨_, _, he⟩)
      · rw [if_neg hempty] at he
        by_cases hok : (cleanupDeletes P (get_zone b) ids).2
        · rw [if_pos hok] at he
          simp only [List.mem_cons, List.mem_append, List.mem_singleton,
            List.not_mem_nil, or_false] at he
          rcases he with (he | he) | he
          · exact Or.inr (Or.inl ⟨_, _, he⟩)
          · obtain ⟨i, hi⟩ := cleanupDeletes_evs_shape P (get_zone b) ids e he
            exact Or.inr (Or.inr (Or.inl ⟨_, i, hi⟩))
          · exact Or.inr (Or.inr (Or.inr ⟨_, he⟩))
        · rw [if_neg hok] at he
          simp only [List.mem_cons] at he
          rcases he with he | he
          · exact Or.inr (Or.inl ⟨_, _, he⟩)
          · obtain ⟨i, hi⟩ := cleanupDeletes_evs_shape P (get_zone b) ids e he
            exact Or.inr (Or.inr (Or.inl ⟨_, i, hi⟩))

theorem cleanupPhase_no_create (P : Provider) :
    ∀ gs seen e, e ∈ cleanupPhase P seen gs → isCreateRecEv e = false := by
  intro gs
  induction gs with
  | nil => intro seen e he; simp [cleanupPhase] at he
  | cons g rest ih =>
    intro seen e he
    simp only [cleanupPhase] at he
    by_cases hmem : groupLoc g ∈ seen
    · rw [if_pos hmem] at he
      exact ih seen e he
    · rw [if_neg hmem] at he
      rcases List.mem_append.mp he with he | he
      · rcases cleanup_old_evs_shape P g.2.base_domain g.2.subdomain e he with
          h | ⟨z, rn, h⟩ | ⟨z, i, h⟩ | ⟨z, h⟩ <;> simp [h, isCreateRecEv]
      · exact ih (seen ++ [groupLoc g]) e he

theorem cleanupCallsOf_append (a b : List Ev) :
    cleanupCallsOf (a ++ b) = cleanupCallsOf a ++ cleanupCallsOf b :=
  List.filterMap_append a b _

theorem cleanupCallsOf_cleanup_old (P : Provider) (b s : String) :
    cleanupCallsOf (cleanup_old_challenge_records P b s) = [(b, s)] := by
  have htail : ∀ e ∈ cleanup_old_challenge_records P b s,
      e ≠ Ev.cleanupCall b s →
      (match e with
       | Ev.cleanupCall bb ss => some (bb, ss)
       | _ => none) = (none : Option (String × String)) := by
    intro e he hne
    rcases cleanup_old_evs_shape P b s e he with h | ⟨z, rn, h⟩ | ⟨z, i, h⟩ | ⟨z, h⟩
    · exact absurd h hne
    · simp [h]
    · simp [h]
    · simp [h]
  simp only [cleanup_old_challenge_records, cleanupCallsOf, List.filterMap_cons]
  have hrest : ∀ l : List Ev,
      (∀ e ∈ l,
        (match e with
         | Ev.cleanupCall bb ss => some (bb, ss)
         | _ => none) = (none : Option (String × String))) →
      l.filterMap (fun e =>
        match e with
        | Ev.cleanupCall bb ss => some (bb, ss)
        | _ => none) = [] := by
    intro l hl
    exact List.filterMap_eq_nil_iff.mpr hl
  cases hl : P.listTxt (get_zone b) (recordNameFor s) with
  | error msg => simp
  | ok ids =>
    dsimp only
    by_cases hempty : ids.isEmpty
    · simp [hempty]
    · rw [if_neg hempty]
      by_cases hok : (cleanupDeletes P (get_zone b) ids).2
      · rw [if_pos hok]
        rw [hrest]
        intro e he
        simp only [List.mem_cons, List.mem_append, List.mem_singleton,
          List.not_mem_nil, or_false] at he
        rcases he with (he | he) | he
        · simp [he]
        · obtain ⟨i, hi⟩ := cleanupDeletes_evs_shape P (get_zone b) ids e he
          simp [hi]
        · simp [he]
      · rw [if_neg hok]
        rw [hrest]
        intro e he
        simp only [List.mem_cons] at he
        rcases he with he | he
        · simp [he]
        · obtain ⟨i, hi⟩ := cleanupDeletes_evs_shape P (get_zone b) ids e he
          simp [hi]

theorem cleanupPhase_calls (P : Provider) :
    ∀ gs seen, cleanupCallsOf (cleanupPhase P seen gs) =
      firstSeenAux seen (gs.map groupLoc) := by
  intro gs
  induction gs with
  | nil => intro seen; simp [cleanupPhase, firstSeenAux, cleanupCallsOf]
  | cons g rest ih =>
    intro seen
    simp only [cleanupPhase, List.map_cons, firstSeenAux]
    by_cases hmem : groupLoc g ∈ seen
    · rw [if_pos hmem, if_pos hmem]
      exact ih seen
    · rw [if_neg hmem, if_neg hmem]
      rw [cleanupCallsOf_append, cleanupCallsOf_cleanup_old, ih (seen ++ [groupLoc g])]
      rfl

theorem firstSeenAux_nodup :
    ∀ (xs : List (String × String)) (seen : List (String × String)),
      (firstSeenAux seen xs).Nodup ∧ ∀ y ∈ firstSeenAux seen xs, y ∉ seen := by
  intro xs
  induction xs with
  | nil => intro seen; simp [firstSeenAux]
  | cons x rest ih =>
    intro seen
    simp only [firstSeenAux]
    by_cases hx : x ∈ seen
    · rw [if_pos hx]
      exact ih seen
    · rw [if_neg hx]
      obtain ⟨hnd, hns⟩ := ih (seen ++ [x])
      constructor
      · refine List.nodup_cons.mpr ⟨?_, hnd⟩
        intro hmem
        exact hns x hmem (by simp)
      · intro y hy
        rcases List.mem_cons.mp hy with hy | hy
        · exact hy ▸ hx
        · intro hseen
          exact hns y hy (by simp [hseen])

theorem firstSeenAux_mem :
    ∀ (xs : List (String × String)) (seen : List (String × String)) (y : String × String),
      y ∈ firstSeenAux seen xs ↔ y ∈ xs ∧ y ∉ seen := by
  intro xs
  induction xs with
  | nil => intro seen y; simp [firstSeenAux]
  | cons x rest ih =>
    intro seen y
    simp only [firstSeenAux]
    by_cases hx : x ∈ seen
    · rw [if_pos hx, ih seen y]
      constructor
      · rintro ⟨hy, hys⟩
        exact ⟨List.mem_cons_of_mem x hy, hys⟩
      · rintro ⟨hy, hys⟩
        rcases List.mem_cons.mp hy with hy | hy
        · exact absurd (hy ▸ hx) hys
        · exact ⟨hy, hys⟩
    · rw [if_neg hx]
      constructor
      · intro hy
        rcases List.mem_cons.mp hy with hy | hy
        · exact ⟨hy ▸ List.mem_cons_self x rest, hy ▸ hx⟩
        · obtain ⟨hyr, hyns⟩ := (ih (seen ++ [x]) y).mp hy
          refine ⟨List.mem_cons_of_mem x hyr, ?_⟩
          intro hseen
          exact hyns (by simp [hseen])
      · rintro ⟨hy, hys⟩
        rcases List.mem_cons.mp hy with hy | hy
        · exact hy ▸ List.mem_cons_self x _
        · by_cases hyx : y = x
          · exact hyx ▸ List.mem_cons_self x _
          · refine List.mem_cons_of_mem x ((ih (seen ++ [x]) y).mpr ⟨hy, ?_⟩)
            simp [hys, hyx]

theorem create_txt_record_no_call (P : Provider) (tbl : RecordTable)
    (domain subdomain v : String) :
    ∀ e ∈ (create_txt_record P tbl domain subdomain v).evs,
      isCleanupCallEv e = false := by
  intro e he
  simp only [create_txt_record] at he
  cases hc : P.create (get_zone domain) (recordNameFor subdomain) v with
  | error msg =>
    rw [hc] at he
    simp only [List.mem_singleton] at he
    simp [he, isCleanupCallEv]
  | ok id =>
    rw [hc] at he
    dsimp only at he
    cases hr : P.refreshZone (get_zone domain) with
    | error msg =>
      rw [hr] at he
      simp only [List.mem_cons, List.mem_singleton, List.not_mem_nil, or_false] at he
      rcases he with he | he <;> simp [he, isCleanupCallEv]
    | ok u =>
      rw [hr] at he
      simp only [List.mem_cons, List.mem_singleton, List.not_mem_nil, or_false] at he
      rcases he with he | he <;> simp [he, isCleanupCallEv]

theorem createGroupRecords_no_call (P : Provider) (base_domain subdomain : String) :
    ∀ vs tbl e, e ∈ (createGroupRecords P tbl base_domain subdomain vs).evs →
      isCleanupCallEv e = false := by
  intro vs
  induction vs with
  | nil => intro tbl e he; simp [createGroupRecords] at he
  | cons v rest ih =>
    intro tbl e he
    simp only [createGroupRecords] at he
    cases hres : (create_txt_record P tbl base_domain subdomain v).res with
    | error msg =>
      rw [hres] at he
      exact create_txt_record_no_call P tbl base_domain subdomain v e he
    | ok id =>
      rw [hres] at he
      dsimp only at he
      rcases List.mem_append.mp he with he | he
      · exact create_txt_record_no_call P tbl base_domain subdomain v e he
      · exact ih _ e he

theorem createPhase_no_call (P : Provider) :
    ∀ gs tbl e, e ∈ (createPhase P tbl gs).evs → isCleanupCallEv e = false := by
  intro gs
  induction gs with
  | nil => intro tbl e he; simp [createPhase] at he
  | cons g rest ih =>
    intro tbl e he
    simp only [createPhase] at he
    cases herr : (createGroupRecords P tbl g.2.base_domain g.2.subdomain g.2.validations).err with
    | some msg =>
      rw [herr] at he
      exact createGroupRecords_no_call P g.2.base_domain g.2.subdomain g.2.validations tbl e he
    | none =>
      rw [herr] at he
      dsimp only at he
      rcases List.mem_append.mp he with he | he
      · exact createGroupRecords_no_call P g.2.base_domain g.2.subdomain g.2.validations tbl e he
      · exact ih _ e he

theorem collectFound_no_call (P : Provider) (zone : String) (vals : List String) :
    ∀ ids e, e ∈ (collectFound P zone vals ids).1 → isCleanupCallEv e = false := by
  intro ids
  induction ids with
  | nil => intro e he; simp [collectFound] at he
  | cons i rest ih =>
    intro e he
    cases hg : P.getTarget zone i with
    | error msg =>
      rw [collectFound, hg] at he
      simp only [List.mem_singleton] at he
      simp [he, isCleanupCallEv]
    | ok t =>
      rw [collectFound, hg] at he
      dsimp only at he
      rcases List.mem_cons.mp he with he | he
      · simp [he, isCleanupCallEv]
      · exact ih e he

theorem verifyGroup_no_call (P : Provider) (info : GroupInfo) :
    ∀ e ∈ (verifyGroup P info).1, isCleanupCallEv e = false := by
  intro e he
  simp only [verifyGroup] at he
  cases hl : P.listTxt (get_zone info.base_domain) (recordNameFor info.subdomain) with
  | error msg =>
    rw [hl] at he
    simp only [List.mem_singleton] at he
    simp [he, isCleanupCallEv]
  | ok ids =>
    rw [hl] at he
    dsimp only at he
    cases hc : (collectFound P (get_zone info.base_domain) info.validations ids).2 with
    | none =>
      rw [hc] at he
      dsimp only at he
      rcases List.mem_cons.mp he with he | he
      · simp [he, isCleanupCallEv]
      · exact collectFound_no_call P (get_zone info.base_domain) info.validations ids e he
    | some found =>
      rw [hc] at he
      dsimp only at he
      rcases List.mem_cons.mp he with he | he
      · simp [he, isCleanupCallEv]
      · exact collectFound_no_call P (get_zone info.base_domain) info.validations ids e he

theorem verifyPhase_no_call (P : Provider) :
    ∀ gs e, e ∈ (verifyPhase P gs).evs → isCleanupCallEv e = false := by
  intro gs
  induction gs with
  | nil => intro e he; simp [verifyPhase] at he
  | cons g rest ih =>
    intro e he
    simp only [verifyPhase] at he
    rcases List.mem_append.mp he with he | he
    · exact verifyGroup_no_call P g.2 e he
    · exact ih e he

theorem probePhase_no_call : ∀ doms e, e ∈ probePhase doms → isCleanupCallEv e = false := by
  intro doms
  induction doms with
  | nil => intro e he; simp [probePhase] at he
  | cons d rest ih =>
    intro e he
    rcases List.mem_cons.mp he with he | he
    · simp [he, isCleanupCallEv]
    · exact ih e he

theorem answerPhase_no_call (A : Acme) :
    ∀ doms e, e ∈ (answerPhase A doms).evs → isCleanupCallEv e = false := by
  intro doms
  induction doms with
  | nil => intro e he; simp [answerPhase] at he
  | cons d rest ih =>
    intro e he
    cases ha : A.answerChallenge d with
    | error msg =>
      rw [answerPhase, ha] at he
      simp only [List.mem_singleton] at he
      simp [he, isCleanupCallEv]
    | ok u =>
      rw [answerPhase, ha] at he
      dsimp only at he
      rcases List.mem_cons.mp he with he | he
      · simp [he, isCleanupCallEv]
      · exact ih e he

theorem pollLoopFuel_no_call (A : Acme) (d : String) :
    ∀ fuel now k e, e ∈ (pollLoopFuel A d fuel now k).evs → isCleanupCallEv e = false := by
  intro fuel
  induction fuel with
  | zero => intro now k e he; simp [pollLoopFuel] at he
  | succ fuel ih =>
    intro now k e he
    cases hs : A.pollAuth d k with
    | valid =>
      rw [pollLoopFuel, hs] at he
      simp only [List.mem_singleton] at he
      simp [he, isCleanupCallEv]
    | invalid =>
      rw [pollLoopFuel, hs] at he
      simp only [List.mem_singleton] at he
      simp [he, isCleanupCallEv]
    | pending =>
      rw [pollLoopFuel, hs] at he
      dsimp only at he
      rcases List.mem_cons.mp he with he | he
      · simp [he, isCleanupCallEv]
      · rcases List.mem_cons.mp he with he | he
        · simp [he, isCleanupCallEv]
        · exact ih (now + 5) (k + 1) e he

theorem pollPhase_no_call (A : Acme) :
    ∀ doms now e, e ∈ (pollPhase A now doms).evs → isCleanupCallEv e = false := by
  intro doms
  induction doms with
  | nil => intro now e he; simp [pollPhase] at he
  | cons d rest ih =>
    intro now e he
    simp only [pollPhase] at he
    cases hr : (pollDomain A d now).err with
    | some err2 =>
      rw [hr] at he
      exact pollLoopFuel_no_call A d 18 now 0 e he
    | none =>
      rw [hr] at he
      dsimp only at he
      rcases List.mem_append.mp he with he | he
      · exact pollLoopFuel_no_call A d 18 now 0 e he
      · exact ih _ e he

theorem deleteByKey_no_call (P : Provider) (tbl : RecordTable) (zone key : String) :
    ∀ e ∈ (deleteByKey P tbl zone key).evs, isCleanupCallEv e = false := by
  intro e he
  simp only [deleteByKey] at he
  cases hl : tableLookup tbl key with
  | none => rw [hl] at he; simp at he
  | some id =>
    rw [hl] at he
    dsimp only at he
    cases hd : P.deleteRecord zone id with
    | error msg =>
      rw [hd] at he
      simp only [List.mem_singleton] at he
      simp [he, isCleanupCallEv]
    | ok u =>
      rw [hd] at he
      dsimp only at he
      cases hr : P.refreshZone zone with
      | error msg =>
        rw [hr] at he
        simp only [List.mem_cons, List.not_mem_nil, or_false] at he
        rcases he with he | he <;> simp [he, isCleanupCallEv]
      | ok u2 =>
        rw [hr] at he
        simp only [List.mem_cons, List.not_mem_nil, or_false] at he
        rcases he with he | he <;> simp [he, isCleanupCallEv]

theorem delete_txt_record_no_call (P : Provider) (tbl : RecordTable)
    (domain subdomain : String) (value : Option String) :
    ∀ e ∈ (delete_txt_record P tbl domain subdomain value).evs,
      isCleanupCallEv e = false := by
  intro e he
  simp only [delete_txt_record] at he
  cases value with
  | none => exact deleteByKey_no_call P tbl _ _ e he
  | some v =>
    dsimp only at he
    by_cases hv : v = ""
    · rw [if_pos hv] at he
      exact deleteByKey_no_call P tbl _ _ e he
    · rw [if_neg hv] at he
      exact deleteByKey_no_call P tbl _ _ e he

theorem teardown_no_call (P : Provider) :
    ∀ created tbl e, e ∈ (teardown P tbl created).evs → isCleanupCallEv e = false := by
  intro created
  induction created with
  | nil => intro tbl e he; simp [teardown] at he
  | cons t rest ih =>
    intro tbl e he
    simp only [teardown] at he
    rcases List.mem_append.mp he with he | he
    · exact delete_txt_record_no_call P tbl t.1 t.2.1 (some t.2.2) e he
    · exact ih _ e he

theorem run_trace_split (P : Provider) (A : Acme) (ds : List Desc) :
    ∃ r, (requestCertificate P A ds).trace =
        cleanupPhase P [] (groupChallenges ds) ++ r ∧
      ∀ e ∈ r, isCleanupCallEv e = false := by
  cases hc : (createPhase P [] (groupChallenges ds)).err with
  | some msg =>
    refine ⟨(createPhase P [] (groupChallenges ds)).evs, ?_, ?_⟩
    · simp [requestCertificate, hc]
    · intro e he
      exact createPhase_no_call P (groupChallenges ds) [] e he
  | none =>
    cases ha : (answerPhase A (groupDomains (groupChallenges ds))).err with
    | some err =>
      refine ⟨(createPhase P [] (groupChallenges ds)).evs ++
          ((verifyPhase P (groupChallenges ds)).evs ++
            ((Ev.sleep DNS_PROPAGATION_WAIT ::
                probePhase (groupDomains (groupChallenges ds))) ++
              (answerPhase A (groupDomains (groupChallenges ds))).evs)), ?_, ?_⟩
      · simp [requestCertificate, hc, ha, List.append_assoc]
      · intro e he
        simp only [List.mem_append, List.mem_cons] at he
        rcases he with he | he | (he | he) | he
        · exact createPhase_no_call P (groupChallenges ds) [] e he
        · exact verifyPhase_no_call P (groupChallenges ds) e he
        · simp [he, isCleanupCallEv]
        · exact probePhase_no_call (groupDomains (groupChallenges ds)) e he
        · exact answerPhase_no_call A (groupDomains (groupChallenges ds)) e he
    | none =>
      have hmem : ∀ e ∈ (createPhase P [] (groupChallenges ds)).evs ++
          ((verifyPhase P (groupChallenges ds)).evs ++
            ((Ev.sleep DNS_PROPAGATION_WAIT ::
                probePhase (groupDomains (groupChallenges ds))) ++
              ((answerPhase A (groupDomains (groupChallenges ds))).evs ++
                ((pollPhase A 0 (groupDomains (groupChallenges ds))).evs ++
                  ((teardown P (createPhase P [] (groupChallenges ds)).tbl
                      (createPhase P [] (groupChallenges ds)).created).evs ++
                    [Ev.finalize]))))),
          isCleanupCallEv e = false := by
        intro e he
        simp only [List.mem_append, List.mem_cons, List.mem_singleton,
          List.not_mem_nil, or_false] at he
        rcases he with he | he | (he | he) | he | he | he | he
        · exact createPhase_no_call P (groupChallenges ds) [] e he
        · exact verifyPhase_no_call P (groupChallenges ds) e he
        · simp [he, isCleanupCallEv]
        · exact probePhase_no_call (groupDomains (groupChallenges ds)) e he
        · exact answerPhase_no_call A (groupDomains (groupChallenges ds)) e he
        · exact pollPhase_no_call A (groupDomains (groupChallenges ds)) 0 e he
        · exact teardown_no_call P _ _ e he
        · simp [he, isCleanupCallEv]
      cases hp : (pollPhase A 0 (groupDomains (groupChallenges ds))).err with
      | some err =>
        refine ⟨(createPhase P [] (groupChallenges ds)).evs ++
            ((verifyPhase P (groupChallenges ds)).evs ++
              ((Ev.sleep DNS_PROPAGATION_WAIT ::
                  probePhase (groupDomains (groupChallenges ds))) ++
                ((answerPhase A (groupDomains (groupChallenges ds))).evs ++
                  ((pollPhase A 0 (groupDomains (groupChallenges ds))).evs ++
                    (teardown P (createPhase P [] (groupChallenges ds)).tbl
                      (createPhase P [] (groupChallenges ds)).created).evs)))), ?_, ?_⟩
        · simp [requestCertificate, hc, ha, hp, List.append_assoc]
        · intro e he
          simp only [List.mem_append, List.mem_cons] at he
          rcases he with he | he | (he | he) | he | he | he
          · exact createPhase_no_call P (groupChallenges ds) [] e he
          · exact verifyPhase_no_call P (groupChallenges ds) e he
          · simp [he, isCleanupCallEv]
          · exact probePhase_no_call (groupDomains (groupChallenges ds)) e he
          · exact answerPhase_no_call A (groupDomains (groupChallenges ds)) e he
          · exact pollPhase_no_call A (groupDomains (groupChallenges ds)) 0 e he
          · exact teardown_no_call P _ _ e he
      | none =>
        cases hf : A.finalizeOrder with
        | error msg =>
          refine ⟨_, ?_, hmem⟩
          simp [requestCertificate, hc, ha, hp, hf, List.append_assoc]
        | ok u =>
          refine ⟨_, ?_, hmem⟩
          simp [requestCertificate, hc, ha, hp, hf, List.append_assoc]

/-- C7: in every certificate request, `cleanup_old_challenge_records` is
invoked exactly once per distinct `(base_domain, subdomain)` record location
(the recorded invocation list has no duplicates and contains precisely the
groups' locations), and the whole trace splits as the cleanup phase followed
by a remainder: every cleanup invocation lies in the first part, which
contains no provider record-creation call, and no cleanup invocation occurs
in the remainder — so all cleanup calls complete before any create begins. -/
theorem c7_cleanup_once_before_create (P : Provider) (A : Acme) (ds : List Desc) :
    ∃ c r, (requestCertificate P A ds).trace = c ++ r ∧
      cleanupCallsOf c = firstSeen ((groupChallenges ds).map groupLoc) ∧
      (cleanupCallsOf c).Nodup ∧
      (∀ x, x ∈ cleanupCallsOf c ↔ x ∈ (groupChallenges ds).map groupLoc) ∧
      (∀ e ∈ c, isCreateRecEv e = false) ∧
      (∀ e ∈ r, isCleanupCallEv e = false) := by
  obtain ⟨r, htr, hr⟩ := run_trace_split P A ds
  refine ⟨cleanupPhase P [] (groupChallenges ds), r, htr, ?_, ?_, ?_, ?_, hr⟩
  · exact cleanupPhase_calls P (groupChallenges ds) []
  · rw [cleanupPhase_calls P (groupChallenges ds) []]
    exact (firstSeenAux_nodup ((groupChallenges ds).map groupLoc) []).1
  · intro x
    rw [cleanupPhase_calls P (groupChallenges ds) [], firstSeenAux_mem]
    simp
  · intro e he
    exact cleanupPhase_no_create P (groupChallenges ds) [] e he

/-! ## Provider-congruence lemmas: which oracle fields each outcome depends on -/

theorem create_txt_record_congr (P Q : Provider) (tbl : RecordTable)
    (domain subdomain v : String)
    (hc : P.create = Q.create) (hr : P.refreshZone = Q.refreshZone) :
    create_txt_record P tbl domain subdomain v =
      create_txt_record Q tbl domain subdomain v := by
  simp only [create_txt_record, hc, hr]

theorem createGroupRecords_congr (P Q : Provider) (base_domain subdomain : String)
    (hc : P.create = Q.create) (hr : P.refreshZone = Q.refreshZone) :
    ∀ vs tbl, createGroupRecords P tbl base_domain subdomain vs =
      createGroupRecords Q tbl base_domain subdomain vs := by
  intro vs
  induction vs with
  | nil => intro tbl; rfl
  | cons v rest ih =>
    intro tbl
    simp only [createGroupRecords,
      create_txt_record_congr P Q tbl base_domain subdomain v hc hr, ih]

theorem createPhase_congr (P Q : Provider)
    (hc : P.create = Q.create) (hr : P.refreshZone = Q.refreshZone) :
    ∀ gs tbl, createPhase P tbl gs = createPhase Q tbl gs := by
  intro gs
  induction gs with
  | nil => intro tbl; rfl
  | cons g rest ih =>
    intro tbl
    simp only [createPhase,
      createGroupRecords_congr P Q g.2.base_domain g.2.subdomain hc hr, ih]

theorem deleteByKey_congr (P Q : Provider) (tbl : RecordTable) (zone key : String)
    (hd : P.deleteRecord = Q.deleteRecord) (hr : P.refreshZone = Q.refreshZone) :
    deleteByKey P tbl zone key = deleteByKey Q tbl zone key := by
  simp only [deleteByKey, hd, hr]

theorem delete_txt_record_congr (P Q : Provider) (tbl : RecordTable)
    (domain subdomain : String) (value : Option String)
    (hd : P.deleteRecord = Q.deleteRecord) (hr : P.refreshZone = Q.refreshZone) :
    delete_txt_record P tbl domain subdomain value =
      delete_txt_record Q tbl domain subdomain value := by
  cases value with
  | none => simp only [delete_txt_record, deleteByKey_congr P Q tbl _ _ hd hr]
  | some v =>
    simp only [delete_txt_record]
    by_cases hv : v = ""
    · rw [if_pos hv, if_pos hv, deleteByKey_congr P Q tbl _ _ hd hr]
    · rw [if_neg hv, if_neg hv, deleteByKey_congr P Q tbl _ _ hd hr]

theorem teardown_congr (P Q : Provider)
    (hd : P.deleteRecord = Q.deleteRecord) (hr : P.refreshZone = Q.refreshZone) :
    ∀ created tbl, teardown P tbl created = teardown Q tbl created := by
  intro created
  induction created with
  | nil => intro tbl; rfl
  | cons t rest ih =>
    intro tbl
    simp only [teardown,
      delete_txt_record_congr P Q tbl t.1 t.2.1 (some t.2.2) hd hr, ih]

theorem run_finalize_result (P : Provider) (A : Acme) (ds : List Desc)
    (hc : (createPhase P [] (groupChallenges ds)).err = none)
    (ha : (answerPhase A (groupDomains (groupChallenges ds))).err = none)
    (hp : (pollPhase A 0 (groupDomains (groupChallenges ds))).err = none) :
    (requestCertificate P A ds).result =
      (match A.finalizeOrder with
       | .error m => .error (.finalizeFailed m)
       | .ok _ => .ok ()) := by
  simp only [requestCertificate, hc, ha, hp]
  cases A.finalizeOrder <;> rfl

/-- The outcome of a run never depends on the provider's list, read, or
delete behaviour: any provider agreeing on `create` and `refreshZone`
produces the same returned/raised result. -/
theorem run_result_congr (P Q : Provider) (A : Acme) (ds : List Desc)
    (hc : P.create = Q.create) (hr : P.refreshZone = Q.refreshZone) :
    (requestCertificate P A ds).result = (requestCertificate Q A ds).result := by
  have hcp : createPhase P [] (groupChallenges ds) = createPhase Q [] (groupChallenges ds) :=
    createPhase_congr P Q hc hr (groupChallenges ds) []
  cases he : (createPhase P [] (groupChallenges ds)).err with
  | some msg =>
    have he2 : (createPhase Q [] (groupChallenges ds)).err = some msg := by
      rw [← hcp]; exact he
    rw [run_create_fail P A ds msg he, run_create_fail Q A ds msg he2]
  | none =>
    have he2 : (createPhase Q [] (groupChallenges ds)).err = none := by
      rw [← hcp]; exact he
    cases ha : (answerPhase A (groupDomains (groupChallenges ds))).err with
    | some e =>
      rw [(run_answer_fail P A ds e he ha).1, (run_answer_fail Q A ds e he2 ha).1]
    | none =>
      cases hp : (pollPhase A 0 (groupDomains (groupChallenges ds))).err with
      | some e =>
        rw [(run_poll_fail P A ds e he ha hp).1, (run_poll_fail Q A ds e he2 ha hp).1]
      | none =>
        rw [run_finalize_result P A ds he ha hp, run_finalize_result Q A ds he2 ha hp]

/-- With agreement also on `deleteRecord`, the final handle table coincides
too: the table never depends on the provider's list/read behaviour. -/
theorem run_tbl_congr (P Q : Provider) (A : Acme) (ds : List Desc)
    (hc : P.create = Q.create) (hr : P.refreshZone = Q.refreshZone)
    (hd : P.deleteRecord = Q.deleteRecord) :
    (requestCertificate P A ds).tbl = (requestCertificate Q A ds).tbl := by
  have hcp : createPhase P [] (groupChallenges ds) = createPhase Q [] (groupChallenges ds) :=
    createPhase_congr P Q hc hr (groupChallenges ds) []
  have htd : teardown P (createPhase P [] (groupChallenges ds)).tbl
        (createPhase P [] (groupChallenges ds)).created =
      teardown Q (createPhase Q [] (groupChallenges ds)).tbl
        (createPhase Q [] (groupChallenges ds)).created := by
    rw [← hcp]
    exact teardown_congr P Q hd hr _ _
  cases he : (createPhase P [] (groupChallenges ds)).err with
  | some msg =>
    have he2 : (createPhase Q [] (groupChallenges ds)).err = some msg := by
      rw [← hcp]; exact he
    rw [run_create_fail P A ds msg he, run_create_fail Q A ds msg he2]
    exact congrArg CreateOut.tbl hcp
  | none =>
    have he2 : (createPhase Q [] (groupChallenges ds)).err = none := by
      rw [← hcp]; exact he
    cases ha : (answerPhase A (groupDomains (groupChallenges ds))).err with
    | some e =>
      rw [(run_answer_fail P A ds e he ha).2, (run_answer_fail Q A ds e he2 ha).2]
      exact congrArg CreateOut.tbl hcp
    | none =>
      cases hp : (pollPhase A 0 (groupDomains (groupChallenges ds))).err with
      | some e =>
        rw [(run_poll_fail P A ds e he ha hp).2, (run_poll_fail Q A ds e he2 ha hp).2]
        exact congrArg TearOut.tbl htd
      | none =>
        rw [run_poll_ok P A ds he ha hp, run_poll_ok Q A ds he2 ha hp]
        exact congrArg TearOut.tbl htd

theorem run_trace_answer_fail (P : Provider) (A : Acme) (ds : List Desc) (e : Err)
    (hc : (createPhase P [] (groupChallenges ds)).err = none)
    (ha : (answerPhase A (groupDomains (groupChallenges ds))).err = some e) :
    (requestCertificate P A ds).trace =
      cleanupPhase P [] (groupChallenges ds) ++
        ((createPhase P [] (groupChallenges ds)).evs ++
          ((verifyPhase P (groupChallenges ds)).evs ++
            ((Ev.sleep DNS_PROPAGATION_WAIT ::
                probePhase (groupDomains (groupChallenges ds))) ++
              (answerPhase A (groupDomains (groupChallenges ds))).evs))) := by
  simp [requestCertificate, hc, ha, List.append_assoc]

theorem run_trace_poll_fail (P : Provider) (A : Acme) (ds : List Desc) (e : Err)
    (hc : (createPhase P [] (groupChallenges ds)).err = none)
    (ha : (answerPhase A (groupDomains (groupChallenges ds))).err = none)
    (hp : (pollPhase A 0 (groupDomains (groupChallenges ds))).err = some e) :
    (requestCertificate P A ds).trace =
      cleanupPhase P [] (groupChallenges ds) ++
        ((createPhase P [] (groupChallenges ds)).evs ++
          ((verifyPhase P (groupChallenges ds)).evs ++
            ((Ev.sleep DNS_PROPAGATION_WAIT ::
                probePhase (groupDomains (groupChallenges ds))) ++
              ((answerPhase A (groupDomains (groupChallenges ds))).evs ++
                ((pollPhase A 0 (groupDomains (groupChallenges ds))).evs ++
                  (teardown P (createPhase P [] (groupChallenges ds)).tbl
                    (createPhase P [] (groupChallenges ds)).created).evs))))) := by
  simp [requestCertificate, hc, ha, hp, List.append_assoc]

theorem run_trace_poll_ok (P : Provider) (A : Acme) (ds : List Desc)
    (hc : (createPhase P [] (groupChallenges ds)).err = none)
    (ha : (answerPhase A (groupDomains (groupChallenges ds))).err = none)
    (hp : (pollPhase A 0 (groupDomains (groupChallenges ds))).err = none) :
    (requestCertificate P A ds).trace =
      cleanupPhase P [] (groupChallenges ds) ++
        ((createPhase P [] (groupChallenges ds)).evs ++
          ((verifyPhase P (groupChallenges ds)).evs ++
            ((Ev.sleep DNS_PROPAGATION_WAIT ::
                probePhase (groupDomains (groupChallenges ds))) ++
              ((answerPhase A (groupDomains (groupChallenges ds))).evs ++
                ((pollPhase A 0 (groupDomains (groupChallenges ds))).evs ++
                  ((teardown P (createPhase P [] (groupChallenges ds)).tbl
                      (createPhase P [] (groupChallenges ds)).created).evs ++
                    [Ev.finalize])))))) := by
  simp only [requestCertificate, hc, ha, hp]
  cases A.finalizeOrder <;> simp [List.append_assoc]

/-- C4: the verification phase is purely advisory.  It cannot raise (its
result type is a plain boolean, not an error channel), and no outcome of the
provider's list/read calls — mismatch or listing error — affects the run:
two providers differing arbitrarily in `listTxt`/`getTarget` (agreeing on
create, refresh and delete) give identical results and final tables; and
whenever record setup succeeded, the flow still reaches the propagation
sleep, the public-DNS probes and the answer step, and (when answering
succeeds) the poll step — a false `allPresent` only changes the logged
warning. -/
theorem c4_verification_advisory (P Q : Provider) (A : Acme) (ds : List Desc)
    (hc : P.create = Q.create) (hr : P.refreshZone = Q.refreshZone)
    (hd : P.deleteRecord = Q.deleteRecord) :
    ((requestCertificate P A ds).result = (requestCertificate Q A ds).result ∧
      (requestCertificate P A ds).tbl = (requestCertificate Q A ds).tbl) ∧
    ((createPhase P [] (groupChallenges ds)).err = none →
      (∃ pre post, (requestCertificate P A ds).trace =
        pre ++ ((Ev.sleep DNS_PROPAGATION_WAIT ::
            probePhase (groupDomains (groupChallenges ds))) ++
          ((answerPhase A (groupDomains (groupChallenges ds))).evs ++ post))) ∧
      ((answerPhase A (groupDomains (groupChallenges ds))).err = none →
        ∃ pre2 post2, (requestCertificate P A ds).trace =
          pre2 ++ ((pollPhase A 0 (groupDomains (groupChallenges ds))).evs ++ post2))) := by
  refine ⟨⟨run_result_congr P Q A ds hc hr, run_tbl_congr P Q A ds hc hr hd⟩, ?_⟩
  intro hcr
  cases ha : (answerPhase A (groupDomains (groupChallenges ds))).err with
  | some e =>
    constructor
    · refine ⟨cleanupPhase P [] (groupChallenges ds) ++
        ((createPhase P [] (groupChallenges ds)).evs ++
          (verifyPhase P (groupChallenges ds)).evs), [], ?_⟩
      rw [run_trace_answer_fail P A ds e hcr ha]
      simp [List.append_assoc]
    · intro hans
      cases hans
  | none =>
    cases hp : (pollPhase A 0 (groupDomains (groupChallenges ds))).err with
    | some e =>
      constructor
      · refine ⟨cleanupPhase P [] (groupChallenges ds) ++
          ((createPhase P [] (groupChallenges ds)).evs ++
            (verifyPhase P (groupChallenges ds)).evs),
          (pollPhase A 0 (groupDomains (groupChallenges ds))).evs ++
            (teardown P (createPhase P [] (groupChallenges ds)).tbl
              (createPhase P [] (groupChallenges ds)).created).evs, ?_⟩
        rw [run_trace_poll_fail P A ds e hcr ha hp]
        simp [List.append_assoc]
      · intro _
        refine ⟨cleanupPhase P [] (groupChallenges ds) ++
          ((createPhase P [] (groupChallenges ds)).evs ++
            ((verifyPhase P (groupChallenges ds)).evs ++
              ((Ev.sleep DNS_PROPAGATION_WAIT ::
                  probePhase (groupDomains (groupChallenges ds))) ++
                (answerPhase A (groupDomains (groupChallenges ds))).evs))),
          (teardown P (createPhase P [] (groupChallenges ds)).tbl
            (createPhase P [] (groupChallenges ds)).created).evs, ?_⟩
        rw [run_trace_poll_fail P A ds e hcr ha hp]
        simp [List.append_assoc]
    | none =>
      constructor
      · refine ⟨cleanupPhase P [] (groupChallenges ds) ++
          ((createPhase P [] (groupChallenges ds)).evs ++
            (verifyPhase P (groupChallenges ds)).evs),
          (pollPhase A 0 (groupDomains (groupChallenges ds))).evs ++
            ((teardown P (createPhase P [] (groupChallenges ds)).tbl
              (createPhase P [] (groupChallenges ds)).created).evs ++
              [Ev.finalize]), ?_⟩
        rw [run_trace_poll_ok P A ds hcr ha hp]
        simp [List.append_assoc]
      · intro _
        refine ⟨cleanupPhase P [] (groupChallenges ds) ++
          ((createPhase P [] (groupChallenges ds)).evs ++
            ((verifyPhase P (groupChallenges ds)).evs ++
              ((Ev.sleep DNS_PROPAGATION_WAIT ::
                  probePhase (groupDomains (groupChallenges ds))) ++
                (answerPhase A (groupDomains (groupChallenges ds))).evs))),
          (teardown P (createPhase P [] (groupChallenges ds)).tbl
            (createPhase P [] (groupChallenges ds)).created).evs ++
            [Ev.finalize], ?_⟩
        rw [run_trace_poll_ok P A ds hcr ha hp]
        simp [List.append_assoc]

/-- Witness for `c4_verification_advisory` at a concrete input: a provider
whose listing and record reads always fail, compared against the all-ok
provider with the same create/refresh/delete behaviour. -/
theorem c4_verification_advisory_witness :
    ((requestCertificate listErrProvider allValidAcme [⟨"a.com", "v1"⟩]).result =
        (requestCertificate okProvider allValidAcme [⟨"a.com", "v1"⟩]).result ∧
      (requestCertificate listErrProvider allValidAcme [⟨"a.com", "v1"⟩]).tbl =
        (requestCertificate okProvider allValidAcme [⟨"a.com", "v1"⟩]).tbl) ∧
    (∃ pre post,
      (requestCertificate listErrProvider allValidAcme [⟨"a.com", "v1"⟩]).trace =
        pre ++ ((Ev.sleep DNS_PROPAGATION_WAIT ::
            probePhase (groupDomains (groupChallenges [⟨"a.com", "v1"⟩]))) ++
          ((answerPhase allValidAcme
              (groupDomains (groupChallenges [⟨"a.com", "v1"⟩]))).evs ++ post))) := by
  have h := c4_verification_advisory listErrProvider okProvider allValidAcme
    [⟨"a.com", "v1"⟩] rfl rfl rfl
  exact ⟨h.1, (h.2 (by decide)).1⟩

/-- C8: error-propagation policy.  `cleanup_old_challenge_records` and
`delete_txt_record` never raise (their result types carry no error channel),
and no outcome of the provider's delete (or list/read) calls affects the
run's result — two providers agreeing only on `create` and `refreshZone`
yield the same result; `create_txt_record` propagates exactly the provider
errors of its create and refresh calls; and on the polling failure path the
re-raised error is the original triggering error, never a teardown/deletion
error. -/
theorem c8_error_propagation (P Q : Provider) (A : Acme) (ds : List Desc)
    (tbl : RecordTable) (domain subdomain v : String)
    (h1 : P.create = Q.create) (h2 : P.refreshZone = Q.refreshZone) :
    (∀ e, (create_txt_record P tbl domain subdomain v).res = .error e ↔
       (P.create (get_zone domain) (recordNameFor subdomain) v = .error e ∨
        ∃ id, P.create (get_zone domain) (recordNameFor subdomain) v = .ok id ∧
          P.refreshZone (get_zone domain) = .error e)) ∧
    (requestCertificate P A ds).result = (requestCertificate Q A ds).result ∧
    (∀ e, (createPhase P [] (groupChallenges ds)).err = none →
      (answerPhase A (groupDomains (groupChallenges ds))).err = none →
      (pollPhase A 0 (groupDomains (groupChallenges ds))).err = some e →
      (requestCertificate P A ds).result = .error e) := by
  refine ⟨?_, run_result_congr P Q A ds h1 h2, ?_⟩
  · intro e
    unfold create_txt_record
    cases hcr : P.create (get_zone domain) (recordNameFor subdomain) v with
    | error msg => simp [hcr]
    | ok id =>
      cases hrz : P.refreshZone (get_zone domain) with
      | error msg => simp [hcr, hrz]
      | ok u => simp [hcr, hrz]
  · intro e hcr ha hp
    exact (run_poll_fail P A ds e hcr ha hp).1

/-- Witness for `c8_error_propagation` at a concrete input: a provider whose
deletions always fail, compared against the all-ok provider, on a session
whose only authorization polls `Invalid`. -/
theorem c8_error_propagation_witness :
    (requestCertificate okProvider invalidAcme [⟨"a.com", "v1"⟩]).result =
      (requestCertificate delErrProvider invalidAcme [⟨"a.com", "v1"⟩]).result ∧
    (requestCertificate okProvider invalidAcme [⟨"a.com", "v1"⟩]).result =
      .error (.challengeFailed "a.com") := by
  have h := c8_error_propagation okProvider delErrProvider invalidAcme
    [⟨"a.com", "v1"⟩] [] "a.com" "" "v1" rfl rfl
  exact ⟨h.2.1,
    h.2.2 (.challengeFailed "a.com") (by decide) (by decide) (by decide)⟩

/-! ## C1: teardown and the record-handle table on the failure paths -/

theorem create_txt_record_keys (P : Provider) (tbl : RecordTable)
    (domain subdomain v : String) :
    ∀ k ∈ tableKeys (create_txt_record P tbl domain subdomain v).tbl,
      k ∈ tableKeys tbl ∨ k = recordKey (recordNameFor subdomain) v := by
  intro k hk
  simp only [create_txt_record] at hk
  cases hcr : P.create (get_zone domain) (recordNameFor subdomain) v with
  | error msg =>
    rw [hcr] at hk
    exact Or.inl hk
  | ok id =>
    rw [hcr] at hk
    dsimp only at hk
    cases hrz : P.refreshZone (get_zone domain) with
    | error msg =>
      rw [hrz] at hk
      exact tableKeys_insert tbl _ id k hk
    | ok u =>
      rw [hrz] at hk
      exact tableKeys_insert tbl _ id k hk

theorem createGroupRecords_keys (P : Provider) (base_domain subdomain : String) :
    ∀ vs tbl, (createGroupRecords P tbl base_domain subdomain vs).err = none →
      ∀ k ∈ tableKeys (createGroupRecords P tbl base_domain subdomain vs).tbl,
        k ∈ tableKeys tbl ∨
        ∃ t ∈ (createGroupRecords P tbl base_domain subdomain vs).created,
          k = recordKey (recordNameFor t.2.1) t.2.2 := by
  intro vs
  induction vs with
  | nil => intro tbl _ k hk; exact Or.inl hk
  | cons v rest ih =>
    intro tbl h k hk
    cases hres : (create_txt_record P tbl base_domain subdomain v).res with
    | error msg => simp [createGroupRecords, hres] at h
    | ok id =>
      simp only [createGroupRecords, hres] at h hk ⊢
      rcases ih (create_txt_record P tbl base_domain subdomain v).tbl h k hk with
        hin | ⟨t, ht, hkey⟩
      · rcases create_txt_record_keys P tbl base_domain subdomain v k hin with
          hin2 | hkey2
        · exact Or.inl hin2
        · exact Or.inr ⟨(base_domain, subdomain, v),
            List.mem_cons_self _ _, hkey2⟩
      · exact Or.inr ⟨t, List.mem_cons_of_mem _ ht, hkey⟩

theorem createPhase_keys (P : Provider) :
    ∀ gs tbl, (createPhase P tbl gs).err = none →
      ∀ k ∈ tableKeys (createPhase P tbl gs).tbl,
        k ∈ tableKeys tbl ∨
        ∃ t ∈ (createPhase P tbl gs).created,
          k = recordKey (recordNameFor t.2.1) t.2.2 := by
  intro gs
  induction gs with
  | nil => intro tbl _ k hk; exact Or.inl hk
  | cons g rest ih =>
    intro tbl h k hk
    cases herr : (createGroupRecords P tbl g.2.base_domain g.2.subdomain g.2.validations).err with
    | some msg => simp [createPhase, herr] at h
    | none =>
      simp only [createPhase, herr] at h hk ⊢
      rcases ih (createGroupRecords P tbl g.2.base_domain g.2.subdomain g.2.validations).tbl
          h k hk with hin | ⟨t, ht, hkey⟩
      · rcases createGroupRecords_keys P g.2.base_domain g.2.subdomain
            g.2.validations tbl herr k hin with hin2 | ⟨t, ht, hkey⟩
        · exact Or.inl hin2
        · exact Or.inr ⟨t, List.mem_append_left _ ht, hkey⟩
      · exact Or.inr ⟨t, List.mem_append_right _ ht, hkey⟩

theorem teardown_empties (P : Provider)
    (hdel : ∀ z i, P.deleteRecord z i = Except.ok ())
    (href : ∀ z, P.refreshZone z = Except.ok ()) :
    ∀ created tbl,
      (∀ k ∈ tableKeys tbl,
        ∃ t ∈ created, k = recordKey (recordNameFor t.2.1) t.2.2) →
      (∀ t ∈ created, t.2.2 ≠ "") →
      (teardown P tbl created).tbl = [] := by
  intro created
  induction created with
  | nil =>
    intro tbl hkeys _
    cases tbl with
    | nil => rfl
    | cons p rest =>
      obtain ⟨t, ht, _⟩ := hkeys p.1 (by simp [tableKeys])
      exact absurd ht (List.not_mem_nil t)
  | cons t rest ih =>
    intro tbl hkeys hne
    have hv : t.2.2 ≠ "" := hne t (List.mem_cons_self t rest)
    simp only [teardown, delete_txt_record, if_neg hv]
    cases hl : tableLookup tbl (recordKey (recordNameFor t.2.1) t.2.2) with
    | none =>
      simp only [deleteByKey, hl]
      refine ih tbl ?_ (fun t2 ht2 => hne t2 (List.mem_cons_of_mem t ht2))
      intro k hk
      obtain ⟨t2, ht2, hkey⟩ := hkeys k hk
      rcases List.mem_cons.mp ht2 with ht2 | ht2
      · subst ht2
        exact absurd (hkey ▸ hk) (tableLookup_none_not_mem tbl _ hl)
      · exact ⟨t2, ht2, hkey⟩
    | some id =>
      simp only [deleteByKey, hl, hdel, href]
      refine ih (tableErase tbl (recordKey (recordNameFor t.2.1) t.2.2)) ?_
        (fun t2 ht2 => hne t2 (List.mem_cons_of_mem t ht2))
      intro k hk
      obtain ⟨hin, hnk⟩ := tableKeys_erase tbl _ k hk
      obtain ⟨t2, ht2, hkey⟩ := hkeys k hin
      rcases List.mem_cons.mp ht2 with ht2 | ht2
      · subst ht2
        exact absurd hkey hnk
      · exact ⟨t2, ht2, hkey⟩

/-- C1, as stated, fails at the `Answering` step: the `try` whose handler
performs teardown wraps only the polling loop (step 6), while
`answer_challenge` is called in step 5 *outside* it — so an answering failure
propagates with every created TXT record handle still in `record_ids`.
Concretely: one domain, one record created, answering raises; the error
reaches the caller while the handle table still holds the created record. -/
theorem c1_counterexample :
    (requestCertificate okProvider ansFailAcme [⟨"a.com", "v1"⟩]).result =
      .error (.answerFailed "a.com" "answer failed") ∧
    (requestCertificate okProvider ansFailAcme [⟨"a.com", "v1"⟩]).tbl =
      [(recordKey (recordNameFor "") "v1", 1)] ∧
    (requestCertificate okProvider ansFailAcme [⟨"a.com", "v1"⟩]).tbl ≠ [] := by
  decide

/-- C1 (amended): provided the provider's deletions and zone refreshes
succeed and every created validation value is nonempty, the record-handle
table is empty before the error reaches the caller for failures at the
`Polling` step (Invalid or timeout — the teardown loop runs) and at the
`Finalizing` step (the success-path cleanup of step 7 already ran before
finalization), and likewise on success; but on an `Answering`-step failure
no teardown runs: the error propagates with the table exactly as the create
phase left it. -/
theorem c1_teardown (P : Provider) (A : Acme) (ds : List Desc)
    (hdel : ∀ z i, P.deleteRecord z i = Except.ok ())
    (href : ∀ z, P.refreshZone z = Except.ok ())
    (hcr : (createPhase P [] (groupChallenges ds)).err = none)
    (hv : ∀ t ∈ (createPhase P [] (groupChallenges ds)).created, t.2.2 ≠ "") :
    ((answerPhase A (groupDomains (groupChallenges ds))).err = none →
      (requestCertificate P A ds).tbl = []) ∧
    (∀ e, (answerPhase A (groupDomains (groupChallenges ds))).err = some e →
      (requestCertificate P A ds).result = .error e ∧
      (requestCertificate P A ds).tbl =
        (createPhase P [] (groupChallenges ds)).tbl) := by
  have hkeys : ∀ k ∈ tableKeys (createPhase P [] (groupChallenges ds)).tbl,
      ∃ t ∈ (createPhase P [] (groupChallenges ds)).created,
        k = recordKey (recordNameFor t.2.1) t.2.2 := by
    intro k hk
    rcases createPhase_keys P (groupChallenges ds) [] hcr k hk with h | h
    · simp [tableKeys] at h
    · exact h
  have htd : (teardown P (createPhase P [] (groupChallenges ds)).tbl
      (createPhase P [] (groupChallenges ds)).created).tbl = [] :=
    teardown_empties P hdel href _ _ hkeys hv
  constructor
  · intro ha
    cases hp : (pollPhase A 0 (groupDomains (groupChallenges ds))).err with
    | some e =>
      rw [(run_poll_fail P A ds e hcr ha hp).2]
      exact htd
    | none =>
      rw [run_poll_ok P A ds hcr ha hp]
      exact htd
  · intro e ha
    exact run_answer_fail P A ds e hcr ha

/-- Witness for `c1_teardown` at concrete inputs: a polling-failure session
ends with an empty table, while an answering-failure session keeps the
create-phase table. -/
theorem c1_teardown_witness :
    (requestCertificate okProvider invalidAcme [⟨"a.com", "v1"⟩]).tbl = [] ∧
    (requestCertificate okProvider ansFailAcme [⟨"a.com", "v1"⟩]).tbl =
      (createPhase okProvider [] (groupChallenges [⟨"a.com", "v1"⟩])).tbl := by
  constructor
  · exact (c1_teardown okProvider invalidAcme [⟨"a.com", "v1"⟩]
      (fun z i => rfl) (fun z => rfl) (by decide) (by decide)).1 (by decide)
  · exact ((c1_teardown okProvider ansFailAcme [⟨"a.com", "v1"⟩]
      (fun z i => rfl) (fun z => rfl) (by decide) (by decide)).2
      (.answerFailed "a.com" "answer failed") (by decide)).2
